import Mathlib

/-!
# Pianesia: the note judgment engine of `PlayingState`

A shallow embedding of `src/src/State_Playing.cpp`:

* `PlayingState::SetupNoteState` (lines 27-40),
* `PlayingState::ResetSong` (lines 43-67),
* `PlayingState::CalculateScoreMultiplier` (lines 152-161),
* the frame delta and the judgment sweep of `PlayingState::Update` (lines 187-224).

Modelling decisions.

* `microseconds_t` and `int` are modelled by `Int` without wrap-around: the only
  arithmetic is `start + NoteWindowLength / 2`, `counter + 1`, `integral + speed` and
  the delta scaling, and signed overflow is undefined behaviour in C++, so no wrapped
  value is a behaviour of the program.  C++ `/` on integers truncates: `Int.tdiv`.
* `TranslatedNoteSet` is a `std::set`.  It is modelled by the list of its elements in
  iteration order.  Its comparator is declared in a header that is not part of the
  sources, so it is a parameter `lt` of every operation on the set; what is assumed
  of it is stated in `NoteOrder`.
* An iterator into the set is modelled by the element it points to (`none` is
  `end()`); `std::set` iterators stay valid when other elements are inserted or
  erased, and the elements of a set are pairwise inequivalent, so the element
  identifies the node.
* `track_properties[i]` with `i` out of range is undefined behaviour: the model
  returns `none`.
* `KeyboardDisplay::NoteWindowLength` is declared in a header that is not part of
  the sources: it is a parameter.
-/

namespace Pianesia

/-! ## Data model -/

/-- NoteState of a note, the four values the source uses (`AutoPlayed`, `UserPlayable`,
`UserHit`, `UserMissed`). -/
inductive NoteState where
  | AutoPlayed
  | UserPlayable
  | UserHit
  | UserMissed
deriving DecidableEq, Repr

/-- Modelled from the spec: the note record `TranslatedNote` (its declaration is in
`libmidi/Note.h`, which is not part of the sources).  The fields are the ones the
source reads (`track_id`, `start`, `end`, `state`) and the pitch identity of the
spec's data model (`note_id`).  `end_` stands for the C++ field `end`. -/
structure TranslatedNote where
  start : Int
  end_ : Int
  note_id : Int
  track_id : Nat
  state : NoteState
deriving DecidableEq, Repr

/-- Track modes named in the source (`Track::ModePlayedAutomatically`,
`Track::ModeYouPlay`, `Track::ModePlayedButHidden`). -/
inductive Mode where
  | ModePlayedAutomatically
  | ModeYouPlay
  | ModePlayedButHidden
deriving DecidableEq, Repr

/-- TrackProperties, reduced to the field the judgment engine reads. -/
structure TrackProperties where
  mode : Mode
deriving DecidableEq, Repr

/-- SongStatistics, reduced to the integer counters the source names. -/
structure SongStatistics where
  total_note_count : Int
  notes_user_could_have_played : Int
  speed_integral : Int
  notes_user_actually_played : Int
deriving DecidableEq, Repr

/-- The value-initialised statistics `SongStatistics()`. -/
def SongStatistics.zero : SongStatistics :=
  { total_note_count := 0, notes_user_could_have_played := 0,
    speed_integral := 0, notes_user_actually_played := 0 }

/-- A `TranslatedNoteSet`, as the list of its elements in iteration order. -/
abbrev TranslatedNoteSet := List TranslatedNote

/-- The part of `PlayingState` (with its `SharedState`) that the judgment engine reads
and writes.  `midi_in` is `true` when an input device is attached (the pointer
`m_state.midi_in` is non-null). -/
structure PlayingState where
  m_notes : TranslatedNoteSet
  m_current_combo : Int
  stats : SongStatistics
  song_speed : Int
  midi_in : Bool
  track_properties : List TrackProperties
deriving DecidableEq, Repr

/-! ## The ordered set -/

/-- What is assumed of the comparator of `TranslatedNoteSet`: it is asymmetric (part
of the strict weak ordering `std::set` requires) and it does not read `state` (the
sweep erases a note and inserts its copy with a new state, expecting it at the same
place). -/
structure NoteOrder (lt : TranslatedNote → TranslatedNote → Bool) : Prop where
  asymm : ∀ a b, lt a b = true → lt b a = false
  state_left : ∀ a b s, lt { a with state := s } b = lt a b
  state_right : ∀ a b s, lt a { b with state := s } = lt a b

/-- A well-formed set: strictly increasing for its comparator in iteration order. -/
def WellFormed (lt : TranslatedNote → TranslatedNote → Bool) (m : TranslatedNoteSet) : Prop :=
  List.Pairwise (fun a b => lt a b = true) m

/-- The comparator `byKey`: a concrete comparator satisfying `NoteOrder`, lexicographic on
`start`, `end`, `note_id`, `track_id`.  Used to instantiate the parameter on
concrete inputs. -/
def byKey (a b : TranslatedNote) : Bool :=
  decide (a.start < b.start) ||
  (decide (a.start = b.start) &&
    (decide (a.end_ < b.end_) ||
    (decide (a.end_ = b.end_) &&
      (decide (a.note_id < b.note_id) ||
      (decide (a.note_id = b.note_id) && decide (a.track_id < b.track_id))))))

/-- The operation `std::set::insert`: the element is placed before the first element
that is greater; when an equivalent element is present nothing is inserted.  The
second component is the element the returned iterator points to. -/
def set_insert (lt : TranslatedNote → TranslatedNote → Bool) (x : TranslatedNote) :
    TranslatedNoteSet → TranslatedNoteSet × TranslatedNote
  | [] => ([x], x)
  | y :: ys =>
    if lt x y then (x :: y :: ys, x)
    else if lt y x then ((y :: (set_insert lt x ys).1), (set_insert lt x ys).2)
    else (y :: ys, y)

/-- The operation `std::set::erase(iterator)`: the node the iterator points to is
removed. -/
def set_erase (m : TranslatedNoteSet) (x : TranslatedNote) : TranslatedNoteSet :=
  m.erase x

/-- The iterator increment `i++` on an iterator pointing to `x`: the first element
after `x` in the order, `none` for `end()`. -/
def set_next (lt : TranslatedNote → TranslatedNote → Bool) (m : TranslatedNoteSet)
    (x : TranslatedNote) : Option TranslatedNote :=
  m.find? (fun y => lt x y)

/-- The iterator `begin()`. -/
def set_begin (m : TranslatedNoteSet) : Option TranslatedNote :=
  m.head?

/-! ## SetupNoteState and ResetSong -/

/-- The loop of `SetupNoteState` (lines 33-39): every note of `old` is copied, its state
set from the mode of its track, and inserted into `m_notes`. -/
def SetupNoteState_loop (lt : TranslatedNote → TranslatedNote → Bool)
    (track_properties : List TrackProperties) :
    List TranslatedNote → TranslatedNoteSet → Option TranslatedNoteSet
  | [], m_notes => some m_notes
  | n :: old, m_notes =>
    match track_properties[n.track_id]? with
    | none => none
    | some p =>
      let note : TranslatedNote :=
        { n with state := if p.mode = Mode.ModeYouPlay then NoteState.UserPlayable
                          else NoteState.AutoPlayed }
      SetupNoteState_loop lt track_properties old (set_insert lt note m_notes).1

/-- The function `PlayingState::SetupNoteState` (lines 27-40): `old.swap(m_notes)` leaves
`m_notes` empty, then the loop refills it. -/
def SetupNoteState (lt : TranslatedNote → TranslatedNote → Bool) (s : PlayingState) :
    Option PlayingState :=
  (SetupNoteState_loop lt s.track_properties s.m_notes []).map
    (fun m => { s with m_notes := m })

/-- The function `PlayingState::ResetSong` (lines 43-67) for a loaded song: `notes` is
what `m_state.midi->Notes()` returns. -/
def ResetSong (lt : TranslatedNote → TranslatedNote → Bool) (notes : TranslatedNoteSet)
    (s : PlayingState) : Option PlayingState :=
  (SetupNoteState lt { s with m_notes := notes }).map
    (fun s1 =>
      { s1 with
        stats := { SongStatistics.zero with total_note_count := (s1.m_notes.length : Int) }
        m_current_combo := 0 })

/-! ## CalculateScoreMultiplier -/

/-- The function `PlayingState::CalculateScoreMultiplier` (lines 152-161), with the
`double` arithmetic read over exact rationals. -/
def CalculateScoreMultiplier (m_current_combo : Int) : ℚ :=
  let MaxMultiplier : ℚ := 5
  let multiplier : ℚ := 1
  let combo_addition : ℚ := (m_current_combo : ℚ) / 10
  let multiplier := multiplier + combo_addition
  min MaxMultiplier multiplier

/-! ## Update: the frame delta and the judgment sweep -/

/-- The speed-scaled delta of `Update` (lines 187-192) handed to `Play`:
`delta_ms` is what `GetDeltaMilliseconds()` returns. -/
def Update_delta (delta_ms : Int) (song_speed : Int) (m_paused : Bool) : Int :=
  let delta_microseconds := delta_ms * 1000
  let delta_microseconds := Int.tdiv delta_microseconds 100 * song_speed
  if m_paused then 0 else delta_microseconds

/-- A log of what a sweep did, kept beside the state and never read by the sweep:
`missed` lists the notes on which the write of lines 208-211 was performed (as they
were before the write), `erased` the notes erased at line 222 (as they were when
erased), both in the order of the events. -/
structure SweepLog where
  missed : List TranslatedNote
  erased : List TranslatedNote
deriving DecidableEq, Repr

/-- The empty log. -/
def SweepLog.empty : SweepLog := { missed := [], erased := [] }

/-- The miss detection of lines 207-212 on the note the iterator `note` points to: the
state, the iterator `note` afterwards, and the log. -/
def Update_miss (lt : TranslatedNote → TranslatedNote → Bool) (window_end cur_time : Int)
    (note : TranslatedNote) (s : PlayingState) (g : SweepLog) :
    PlayingState × TranslatedNote × SweepLog :=
  if s.midi_in && decide (note.state = NoteState.UserPlayable)
      && decide (window_end ≤ cur_time) then
    let note_copy : TranslatedNote := { note with state := NoteState.UserMissed }
    let ins := set_insert lt note_copy (set_erase s.m_notes note)
    ({ s with m_notes := ins.1 }, ins.2, { g with missed := g.missed ++ [note] })
  else (s, note, g)

/-- The scoring effect of a miss, lines 218-220. -/
def Update_score_miss (s : PlayingState) : PlayingState :=
  { s with
    m_current_combo := 0
    stats := { s.stats with
      notes_user_could_have_played := s.stats.notes_user_could_have_played + 1
      speed_integral := s.stats.speed_integral + s.song_speed } }

/-- The removal of lines 217-222 of the note the iterator `note` points to. -/
def Update_remove (note : TranslatedNote) (s : PlayingState) (g : SweepLog) :
    PlayingState × SweepLog :=
  let s1 : PlayingState :=
    if note.state = NoteState.UserMissed then Update_score_miss s else s
  ({ s1 with m_notes := set_erase s1.m_notes note }, { g with erased := g.erased ++ [note] })

/-- The `while` loop of lines 203-224.  The second argument is the iterator `i`; the
first bounds the number of iterations (`none` when it is exhausted before the loop
ends). -/
def Update_loop (lt : TranslatedNote → TranslatedNote → Bool)
    (NoteWindowLength cur_time : Int) :
    Nat → Option TranslatedNote → PlayingState → SweepLog → Option (PlayingState × SweepLog)
  | _, none, s, g => some (s, g)
  | 0, some _, _, _ => none
  | fuel + 1, some note, s, g =>
    let i := set_next lt s.m_notes note
    let window_end := note.start + Int.tdiv NoteWindowLength 2
    let r := Update_miss lt window_end cur_time note s g
    if r.2.1.start > cur_time then some (r.1, r.2.2)
    else if r.2.1.end_ < cur_time ∧ window_end < cur_time then
      Update_loop lt NoteWindowLength cur_time fuel i
        (Update_remove r.2.1 r.1 r.2.2).1 (Update_remove r.2.1 r.1 r.2.2).2
    else Update_loop lt NoteWindowLength cur_time fuel i r.1 r.2.2

/-- The judgment sweep of `Update` (lines 199-224) at song position `cur_time`, with
its log; the loop is given one iteration per note of the set. -/
def Update_sweep_log (lt : TranslatedNote → TranslatedNote → Bool)
    (NoteWindowLength cur_time : Int) (s : PlayingState) (g : SweepLog) :
    Option (PlayingState × SweepLog) :=
  Update_loop lt NoteWindowLength cur_time s.m_notes.length (set_begin s.m_notes) s g

/-- The judgment sweep of `Update` (lines 199-224) at song position `cur_time`. -/
def Update_sweep (lt : TranslatedNote → TranslatedNote → Bool)
    (NoteWindowLength cur_time : Int) (s : PlayingState) : Option PlayingState :=
  (Update_sweep_log lt NoteWindowLength cur_time s SweepLog.empty).map Prod.fst

/-- A frame of a run of sweeps: the song position the sweep sees and the playback
speed in effect (the arrow keys change `song_speed` between sweeps, lines 244-250). -/
structure Frame where
  cur_time : Int
  song_speed : Int
deriving DecidableEq, Repr

/-- Successive sweeps, one per frame, each on the state the previous one left, with
one log for the whole run. -/
def Update_sweeps (lt : TranslatedNote → TranslatedNote → Bool) (NoteWindowLength : Int) :
    List Frame → PlayingState → SweepLog → Option (PlayingState × SweepLog)
  | [], s, g => some (s, g)
  | f :: fs, s, g =>
    match Update_sweep_log lt NoteWindowLength f.cur_time
        { s with song_speed := f.song_speed } g with
    | none => none
    | some r => Update_sweeps lt NoteWindowLength fs r.1 r.2

/-! ## Descriptions of the sweep, used to state what it computes -/

/-- The state write of lines 207-212 seen on one note: the note afterwards. -/
def judged (midi_in : Bool) (NoteWindowLength cur_time : Int) (n : TranslatedNote) :
    TranslatedNote :=
  if midi_in && decide (n.state = NoteState.UserPlayable)
      && decide (n.start + Int.tdiv NoteWindowLength 2 ≤ cur_time) then
    { n with state := NoteState.UserMissed }
  else n

/-- The removal condition of line 216. -/
def expired (NoteWindowLength cur_time : Int) (n : TranslatedNote) : Bool :=
  decide (n.end_ < cur_time ∧ n.start + Int.tdiv NoteWindowLength 2 < cur_time)

/-- The notes a forward pass with the early exit of line 214 leaves, from a list of notes
in iteration order. -/
def passKept (midi_in : Bool) (W cur_time : Int) : List TranslatedNote → List TranslatedNote
  | [] => []
  | n :: rest =>
    if (judged midi_in W cur_time n).start > cur_time then judged midi_in W cur_time n :: rest
    else if expired W cur_time n then passKept midi_in W cur_time rest
    else judged midi_in W cur_time n :: passKept midi_in W cur_time rest

/-- The notes a forward pass with the early exit erases, as they are when erased. -/
def passErased (midi_in : Bool) (W cur_time : Int) : List TranslatedNote → List TranslatedNote
  | [] => []
  | n :: rest =>
    if (judged midi_in W cur_time n).start > cur_time then []
    else if expired W cur_time n then
      judged midi_in W cur_time n :: passErased midi_in W cur_time rest
    else passErased midi_in W cur_time rest

/-- The notes a forward pass with the early exit marks missed, as they were before. -/
def passMissed (midi_in : Bool) (W cur_time : Int) : List TranslatedNote → List TranslatedNote
  | [] => []
  | n :: rest =>
    (if judged midi_in W cur_time n = n then [] else [n]) ++
      (if (judged midi_in W cur_time n).start > cur_time then []
       else passMissed midi_in W cur_time rest)

/-- The scoring effect of lines 217-221 for a list of erased notes, in order. -/
def applyErased : List TranslatedNote → PlayingState → PlayingState
  | [], s => s
  | n :: es, s =>
    applyErased es (if n.state = NoteState.UserMissed then Update_score_miss s else s)

/-- The state with its note set replaced. -/
def withNotes (s : PlayingState) (m : TranslatedNoteSet) : PlayingState :=
  { s with m_notes := m }

/-- The number of notes of a list whose state is `UserMissed`. -/
def missedCount (es : List TranslatedNote) : Nat :=
  (es.filter (fun n => decide (n.state = NoteState.UserMissed))).length

/-- The identity of a note: every field but `state`. -/
def noteKey (n : TranslatedNote) : Int × Int × Int × Nat :=
  (n.start, n.end_, n.note_id, n.track_id)

/-- The only change of a note the sweep makes: none, or `UserPlayable` to
`UserMissed`. -/
def NoteStep (a b : TranslatedNote) : Prop :=
  b = a ∨ (a.state = NoteState.UserPlayable ∧ b = { a with state := NoteState.UserMissed })

/-- The state `SetupNoteState` gives a note of a track with properties `p`. -/
def setupState (p : TrackProperties) : NoteState :=
  if p.mode = Mode.ModeYouPlay then NoteState.UserPlayable else NoteState.AutoPlayed

/-- The note `SetupNoteState` rebuilds from `n`: the state is set from the mode of the
track of `n`. -/
def setupNote (track_properties : List TrackProperties) (n : TranslatedNote) :
    TranslatedNote :=
  match track_properties[n.track_id]? with
  | some p => { n with state := setupState p }
  | none => n

/-! ## Concrete inputs -/

/-- Two tracks: track 0 is played by the user, track 1 automatically. -/
def demoTracks : List TrackProperties :=
  [{ mode := Mode.ModeYouPlay }, { mode := Mode.ModePlayedAutomatically }]

/-- Four notes in set order: a short automatic note, a user note that was hit, and
two user notes awaiting judgment. -/
def demoNotes : TranslatedNoteSet :=
  [ { start := 0, end_ := 10, note_id := 61, track_id := 1, state := NoteState.AutoPlayed },
    { start := 500000, end_ := 900000, note_id := 64, track_id := 0,
      state := NoteState.UserHit },
    { start := 1000000, end_ := 1500000, note_id := 60, track_id := 0,
      state := NoteState.UserPlayable },
    { start := 2000000, end_ := 2500000, note_id := 62, track_id := 0,
      state := NoteState.UserPlayable } ]

/-- A session in play with an input device attached, at speed 100 and combo 7. -/
def demoState : PlayingState :=
  { m_notes := demoNotes, m_current_combo := 7,
    stats := { SongStatistics.zero with total_note_count := 4 },
    song_speed := 100, midi_in := true, track_properties := demoTracks }

/-- The note of the scenario: one note of track 0 spanning [1,000,000; 1,500,000]. -/
def scenarioNote : TranslatedNote :=
  { start := 1000000, end_ := 1500000, note_id := 60, track_id := 0,
    state := NoteState.AutoPlayed }

/-- The session the scenario resets: track 0 is played by the user, speed 100, and
an input device attached or not. -/
def scenarioSession (midi_in : Bool) : PlayingState :=
  { m_notes := [], m_current_combo := 3,
    stats := { SongStatistics.zero with notes_user_could_have_played := 9 },
    song_speed := 100, midi_in := midi_in,
    track_properties := [{ mode := Mode.ModeYouPlay }] }

open NoteState

/-! ## Facts about the ordered set -/

theorem NoteOrder.irrefl {lt : TranslatedNote → TranslatedNote → Bool} (h : NoteOrder lt)
    (a : TranslatedNote) : lt a a = false := by
  cases hc : lt a a with
  | false => rfl
  | true => have := h.asymm a a hc; rw [hc] at this; exact this

theorem byKey_noteOrder : NoteOrder byKey := by
  refine ⟨?_, ?_, ?_⟩
  · intro a b h
    simp only [byKey, Bool.or_eq_true, Bool.and_eq_true, decide_eq_true_eq] at h
    simp only [byKey, Bool.or_eq_false_iff, Bool.and_eq_false_imp, decide_eq_false_iff_not,
      decide_eq_true_eq]
    omega
  · intro a b s; rfl
  · intro a b s; rfl

theorem wellFormed_not_mem {lt : TranslatedNote → TranslatedNote → Bool} (h : NoteOrder lt)
    {front rest : List TranslatedNote} {n : TranslatedNote}
    (hw : WellFormed lt (front ++ n :: rest)) : n ∉ front := by
  intro hn
  have := (List.pairwise_append.mp hw).2.2 n hn n (List.mem_cons_self _ _)
  rw [h.irrefl] at this
  exact Bool.noConfusion this

theorem set_next_eq {lt : TranslatedNote → TranslatedNote → Bool} (h : NoteOrder lt)
    {front rest : List TranslatedNote} {n : TranslatedNote}
    (hw : WellFormed lt (front ++ n :: rest)) :
    set_next lt (front ++ n :: rest) n = rest.head? := by
  have hp := List.pairwise_append.mp hw
  have hfront : List.find? (fun y => lt n y) front = none := by
    rw [List.find?_eq_none]
    intro y hy
    have := h.asymm y n (hp.2.2 y hy n (List.mem_cons_self _ _))
    simp [this]
  have hrest := List.pairwise_cons.mp hp.2.1
  unfold set_next
  rw [List.find?_append, hfront, Option.none_or, List.find?_cons, h.irrefl]
  cases rest with
  | nil => rfl
  | cons r rs => simp [hrest.1 r (List.mem_cons_self _ _)]

theorem set_erase_eq {lt : TranslatedNote → TranslatedNote → Bool} (h : NoteOrder lt)
    {front rest : List TranslatedNote} {n : TranslatedNote}
    (hw : WellFormed lt (front ++ n :: rest)) :
    set_erase (front ++ n :: rest) n = front ++ rest := by
  unfold set_erase
  rw [List.erase_append_right _ (wellFormed_not_mem h hw), List.erase_cons_head]

theorem set_insert_eq {lt : TranslatedNote → TranslatedNote → Bool} (h : NoteOrder lt)
    (x : TranslatedNote) (front rest : List TranslatedNote)
    (hfront : ∀ y ∈ front, lt y x = true) (hrest : ∀ y ∈ rest, lt x y = true) :
    set_insert lt x (front ++ rest) = (front ++ x :: rest, x) := by
  induction front with
  | nil =>
    cases rest with
    | nil => rfl
    | cons r rs => simp [set_insert, hrest r (List.mem_cons_self _ _)]
  | cons y ys ih =>
    have hy := hfront y (List.mem_cons_self _ _)
    have hxy := h.asymm y x hy
    have ih2 := ih (fun z hz => hfront z (List.mem_cons_of_mem _ hz))
    simp [set_insert, hy, hxy, ih2]

/-! ## The miss detection and the removal on one note -/

theorem judged_start (mi : Bool) (W cur : Int) (n : TranslatedNote) :
    (judged mi W cur n).start = n.start := by
  unfold judged; split <;> rfl

theorem judged_end (mi : Bool) (W cur : Int) (n : TranslatedNote) :
    (judged mi W cur n).end_ = n.end_ := by
  unfold judged; split <;> rfl

theorem judged_with_state (mi : Bool) (W cur : Int) (n : TranslatedNote) :
    judged mi W cur n = { n with state := (judged mi W cur n).state } := by
  unfold judged; split <;> rfl

theorem wellFormed_setState {lt : TranslatedNote → TranslatedNote → Bool} (h : NoteOrder lt)
    {front rest : List TranslatedNote} {n : TranslatedNote} (st : NoteState)
    (hw : WellFormed lt (front ++ n :: rest)) :
    WellFormed lt (front ++ { n with state := st } :: rest) := by
  unfold WellFormed at *
  rw [List.pairwise_append] at *
  obtain ⟨h1, h2, h3⟩ := hw
  rw [List.pairwise_cons] at *
  refine ⟨h1, ⟨?_, h2.2⟩, ?_⟩
  · intro b hb
    rw [h.state_left]; exact h2.1 b hb
  · intro a ha b hb
    rcases List.mem_cons.mp hb with rfl | hb
    · rw [h.state_right]; exact h3 a ha n (List.mem_cons_self _ _)
    · exact h3 a ha b (List.mem_cons_of_mem _ hb)

theorem wellFormed_drop {lt : TranslatedNote → TranslatedNote → Bool}
    {front rest : List TranslatedNote} {n : TranslatedNote}
    (hw : WellFormed lt (front ++ n :: rest)) : WellFormed lt (front ++ rest) := by
  unfold WellFormed at *
  exact List.Pairwise.sublist
    (List.Sublist.append_left (List.sublist_cons_self n rest) front) hw

/-! ## The scoring effect -/

theorem withNotes_self (s : PlayingState) : withNotes s s.m_notes = s := by
  cases s; rfl

theorem withNotes_withNotes (s : PlayingState) (a b : TranslatedNoteSet) :
    withNotes (withNotes s a) b = withNotes s b := rfl

theorem withNotes_notes (s : PlayingState) (a : TranslatedNoteSet) :
    (withNotes s a).m_notes = a := rfl

theorem withNotes_midi_in (s : PlayingState) (a : TranslatedNoteSet) :
    (withNotes s a).midi_in = s.midi_in := rfl

theorem applyErased_withNotes (es : List TranslatedNote) (s : PlayingState)
    (m : TranslatedNoteSet) :
    applyErased es (withNotes s m) = withNotes (applyErased es s) m := by
  induction es generalizing s with
  | nil => rfl
  | cons e es ih =>
    simp only [applyErased]
    split
    · exact ih (Update_score_miss s)
    · exact ih s

theorem applyErased_midi_in (es : List TranslatedNote) (s : PlayingState) :
    (applyErased es s).midi_in = s.midi_in := by
  induction es generalizing s with
  | nil => rfl
  | cons e es ih =>
    simp only [applyErased]
    split
    · exact ih (Update_score_miss s)
    · exact ih s

theorem applyErased_cons (e : TranslatedNote) (es : List TranslatedNote) (s : PlayingState) :
    applyErased (e :: es) s = applyErased es (applyErased [e] s) := rfl

/-! ## The loop of the sweep is a forward pass over the list -/

theorem Update_miss_eq {lt : TranslatedNote → TranslatedNote → Bool} (h : NoteOrder lt)
    (W cur : Int) {front rest : List TranslatedNote} {n : TranslatedNote}
    (s : PlayingState) (g : SweepLog)
    (hw : WellFormed lt (front ++ n :: rest)) (hs : s.m_notes = front ++ n :: rest) :
    Update_miss lt (n.start + Int.tdiv W 2) cur n s g =
      (withNotes s (front ++ judged s.midi_in W cur n :: rest),
        judged s.midi_in W cur n,
        { missed := g.missed ++ (if judged s.midi_in W cur n = n then [] else [n]),
          erased := g.erased }) := by
  unfold Update_miss judged
  by_cases hc : (s.midi_in && decide (n.state = NoteState.UserPlayable)
      && decide (n.start + Int.tdiv W 2 ≤ cur)) = true
  · have hst : n.state = NoteState.UserPlayable := by
      simp only [Bool.and_eq_true, decide_eq_true_eq] at hc
      exact hc.1.2
    have hne : ({ n with state := NoteState.UserMissed } : TranslatedNote) ≠ n := by
      intro heq
      have := congrArg TranslatedNote.state heq
      rw [hst] at this
      exact NoteState.noConfusion this
    have hp := List.pairwise_append.mp hw
    have hins := set_insert_eq h ({ n with state := NoteState.UserMissed }) front rest
      (fun y hy => by rw [h.state_right]; exact hp.2.2 y hy n (List.mem_cons_self _ _))
      (fun y hy => by rw [h.state_left]; exact (List.pairwise_cons.mp hp.2.1).1 y hy)
    simp only [hc, if_true, hs, set_erase_eq h hw, hins, if_neg hne]
    rfl
  · simp only [hc, if_false, Bool.false_eq_true, if_true, List.append_nil]
    rw [← hs, withNotes_self]

theorem Update_remove_eq {lt : TranslatedNote → TranslatedNote → Bool} (h : NoteOrder lt)
    {front rest : List TranslatedNote} {n : TranslatedNote}
    (s : PlayingState) (g : SweepLog)
    (hw : WellFormed lt (front ++ n :: rest)) (hs : s.m_notes = front ++ n :: rest) :
    Update_remove n s g =
      (withNotes (applyErased [n] s) (front ++ rest),
        { missed := g.missed, erased := g.erased ++ [n] }) := by
  unfold Update_remove
  simp only [applyErased]
  split
  · have : (Update_score_miss s).m_notes = front ++ n :: rest := hs
    rw [this, set_erase_eq h hw]; rfl
  · rw [hs, set_erase_eq h hw]; rfl

theorem Update_loop_step {lt : TranslatedNote → TranslatedNote → Bool} (h : NoteOrder lt)
    (W cur : Int) {front rest : List TranslatedNote} {n : TranslatedNote}
    (s : PlayingState) (g : SweepLog) (fuel : Nat)
    (hw : WellFormed lt (front ++ n :: rest)) (hs : s.m_notes = front ++ n :: rest) :
    Update_loop lt W cur (fuel + 1) (some n) s g =
      if n.start > cur then
        some (withNotes s (front ++ judged s.midi_in W cur n :: rest),
          { missed := g.missed ++ (if judged s.midi_in W cur n = n then [] else [n]),
            erased := g.erased })
      else if expired W cur n = true then
        Update_loop lt W cur fuel rest.head?
          (withNotes (applyErased [judged s.midi_in W cur n] s) (front ++ rest))
          { missed := g.missed ++ (if judged s.midi_in W cur n = n then [] else [n]),
            erased := g.erased ++ [judged s.midi_in W cur n] }
      else
        Update_loop lt W cur fuel rest.head?
          (withNotes s (front ++ judged s.midi_in W cur n :: rest))
          { missed := g.missed ++ (if judged s.midi_in W cur n = n then [] else [n]),
            erased := g.erased } := by
  have hwj : WellFormed lt (front ++ judged s.midi_in W cur n :: rest) := by
    rw [judged_with_state]; exact wellFormed_setState h _ hw
  simp only [Update_loop, Update_miss_eq h W cur s g hw hs, hs,
    set_next_eq h hw, judged_start, judged_end]
  by_cases hb : n.start > cur
  · simp only [hb, if_true]
  · by_cases he : n.end_ < cur ∧ n.start + Int.tdiv W 2 < cur
    · have hex : expired W cur n = true := by simpa [expired] using he
      simp only [hb, if_false, he, and_self, if_true, hex]
      rw [Update_remove_eq h _ _ hwj (withNotes_notes _ _), applyErased_withNotes,
        withNotes_withNotes]
    · have hex : expired W cur n = false := by simpa [expired] using he
      simp only [hb, if_false, he, hex, Bool.false_eq_true]

theorem Update_loop_eq {lt : TranslatedNote → TranslatedNote → Bool} (h : NoteOrder lt)
    (W cur : Int) :
    ∀ (rest front : List TranslatedNote) (s : PlayingState) (g : SweepLog) (fuel : Nat),
      WellFormed lt (front ++ rest) → s.m_notes = front ++ rest → rest.length ≤ fuel →
      Update_loop lt W cur fuel rest.head? s g =
        some (withNotes (applyErased (passErased s.midi_in W cur rest) s)
                (front ++ passKept s.midi_in W cur rest),
              { missed := g.missed ++ passMissed s.midi_in W cur rest,
                erased := g.erased ++ passErased s.midi_in W cur rest }) := by
  intro rest
  induction rest with
  | nil =>
    intro front s g fuel _ hs _
    simp only [List.append_nil] at hs
    cases fuel <;>
      simp only [List.head?_nil, Update_loop, passErased, passKept, passMissed, applyErased,
        List.append_nil, ← hs, withNotes_self]
  | cons n rest ih =>
    intro front s g fuel hw hs hf
    cases fuel with
    | zero => simp at hf
    | succ fuel =>
      have hf2 : rest.length ≤ fuel := by simpa using hf
      rw [List.head?_cons, Update_loop_step h W cur s g fuel hw hs]
      have hwj : WellFormed lt (front ++ judged s.midi_in W cur n :: rest) := by
        rw [judged_with_state]; exact wellFormed_setState h _ hw
      by_cases hb : n.start > cur
      · simp only [hb, if_true, passErased, passKept, passMissed, judged_start, applyErased,
          List.append_nil]
      · by_cases hex : expired W cur n = true
        · simp only [hb, if_false, hex, if_true]
          rw [ih front _ _ fuel (wellFormed_drop hwj) (withNotes_notes _ _) hf2]
          simp only [withNotes_midi_in, applyErased_midi_in, applyErased_withNotes,
            withNotes_withNotes, passErased, passKept, passMissed, judged_start, hb, if_false,
            hex, if_true, List.append_assoc, List.singleton_append, ← applyErased_cons]
        · simp only [hb, if_false, hex]
          have hw2 : WellFormed lt ((front ++ [judged s.midi_in W cur n]) ++ rest) := by
            simpa using hwj
          have hs2 : (withNotes s (front ++ judged s.midi_in W cur n :: rest)).m_notes =
              (front ++ [judged s.midi_in W cur n]) ++ rest := by
            rw [withNotes_notes, List.append_assoc, List.singleton_append]
          rw [ih (front ++ [judged s.midi_in W cur n]) _ _ fuel hw2 hs2 hf2]
          simp only [withNotes_midi_in, applyErased_midi_in, applyErased_withNotes,
            withNotes_withNotes, passErased, passKept, passMissed, judged_start, hb, if_false,
            hex, List.append_assoc, List.singleton_append, Bool.false_eq_true]

theorem Update_sweep_log_eq {lt : TranslatedNote → TranslatedNote → Bool} (h : NoteOrder lt)
    (W cur : Int) (s : PlayingState) (g : SweepLog) (hw : WellFormed lt s.m_notes) :
    Update_sweep_log lt W cur s g =
      some (withNotes (applyErased (passErased s.midi_in W cur s.m_notes) s)
              (passKept s.midi_in W cur s.m_notes),
            { missed := g.missed ++ passMissed s.midi_in W cur s.m_notes,
              erased := g.erased ++ passErased s.midi_in W cur s.m_notes }) := by
  unfold Update_sweep_log set_begin
  have := Update_loop_eq h W cur s.m_notes [] s g s.m_notes.length
    (by simpa using hw) (by simp) (Nat.le_refl _)
  simpa using this

/-! ## The pass on a set ordered by start time -/

theorem tdiv_two_nonneg {W : Int} (hW : 0 ≤ W) : 0 ≤ Int.tdiv W 2 :=
  Int.tdiv_nonneg hW (by decide)

theorem judged_judged (mi : Bool) (W cur : Int) (n : TranslatedNote) :
    judged mi W cur (judged mi W cur n) = judged mi W cur n := by
  unfold judged
  split
  · simp
  · rename_i hc; simp [hc]

theorem expired_judged (mi : Bool) (W cur : Int) (n : TranslatedNote) :
    expired W cur (judged mi W cur n) = expired W cur n := by
  unfold expired; rw [judged_start, judged_end]

theorem judged_of_future (mi : Bool) {W cur : Int} (hW : 0 ≤ W) {n : TranslatedNote}
    (hn : cur < n.start) : judged mi W cur n = n := by
  have := tdiv_two_nonneg hW
  unfold judged
  rw [if_neg]
  simp only [Bool.and_eq_true, decide_eq_true_eq, not_and, not_le]
  intro _; omega

theorem expired_of_future {W cur : Int} (hW : 0 ≤ W) {n : TranslatedNote}
    (hn : cur < n.start) : expired W cur n = false := by
  have := tdiv_two_nonneg hW
  unfold expired
  simp only [decide_eq_false_iff_not, not_and, not_lt]
  intro _; omega

theorem map_judged_of_future (mi : Bool) {W cur : Int} (hW : 0 ≤ W)
    {l : List TranslatedNote} (hl : ∀ m ∈ l, cur < m.start) :
    l.map (judged mi W cur) = l := by
  induction l with
  | nil => rfl
  | cons a l ih =>
    rw [List.map_cons, judged_of_future mi hW (hl a (List.mem_cons_self _ _)),
      ih (fun m hm => hl m (List.mem_cons_of_mem _ hm))]

theorem filter_expired_of_future {W cur : Int} (hW : 0 ≤ W)
    {l : List TranslatedNote} (hl : ∀ m ∈ l, cur < m.start) :
    l.filter (fun n => !(expired W cur n)) = l ∧ l.filter (fun n => expired W cur n) = [] := by
  constructor
  · rw [List.filter_eq_self]
    intro m hm; rw [expired_of_future hW (hl m hm)]; rfl
  · rw [List.filter_eq_nil_iff]
    intro m hm; rw [expired_of_future hW (hl m hm)]; exact Bool.false_ne_true

theorem pass_sorted (mi : Bool) {W : Int} (cur : Int) (hW : 0 ≤ W) :
    ∀ (l : List TranslatedNote), List.Pairwise (fun a b => a.start ≤ b.start) l →
      passKept mi W cur l = (l.filter (fun n => !(expired W cur n))).map (judged mi W cur) ∧
      passErased mi W cur l = (l.filter (fun n => expired W cur n)).map (judged mi W cur) ∧
      passMissed mi W cur l = l.filter (fun n => decide (judged mi W cur n ≠ n)) := by
  intro l
  induction l with
  | nil => intro _; exact ⟨rfl, rfl, rfl⟩
  | cons n rest ih =>
    intro hs
    have hs2 := List.pairwise_cons.mp hs
    obtain ⟨ih1, ih2, ih3⟩ := ih hs2.2
    by_cases hb : n.start > cur
    · have hfut : ∀ m ∈ n :: rest, cur < m.start := by
        intro m hm
        rcases List.mem_cons.mp hm with rfl | hm
        · exact hb
        · have := hs2.1 m hm; omega
      have hf := filter_expired_of_future hW hfut
      have hj : judged mi W cur n = n := judged_of_future mi hW hb
      refine ⟨?_, ?_, ?_⟩
      · rw [hf.1, map_judged_of_future mi hW hfut]
        simp only [passKept, judged_start, hb, if_true, hj]
      · rw [hf.2]
        simp only [passErased, judged_start, hb, if_true, List.map_nil]
      · simp only [passMissed, judged_start, hb, if_true, hj, List.append_nil]
        symm
        rw [List.filter_eq_nil_iff]
        intro m hm
        simp [judged_of_future mi hW (hfut m hm)]
    · by_cases hex : expired W cur n = true
      · refine ⟨?_, ?_, ?_⟩
        · simp only [passKept, judged_start, hb, if_false, hex, if_true, ih1, List.filter_cons,
            Bool.not_true, Bool.false_eq_true]
        · simp only [passErased, judged_start, hb, if_false, hex, if_true, ih2, List.filter_cons,
            List.map_cons]
        · simp only [passMissed, judged_start, hb, if_false, ih3, List.filter_cons]
          by_cases hj : judged mi W cur n = n <;> simp [hj]
      · have hex2 : expired W cur n = false := by simpa using hex
        refine ⟨?_, ?_, ?_⟩
        · simp only [passKept, judged_start, hb, if_false, hex2, ih1, List.filter_cons,
            Bool.not_false, if_true, List.map_cons, Bool.false_eq_true]
        · simp only [passErased, judged_start, hb, if_false, hex2, ih2, List.filter_cons,
            Bool.false_eq_true]
        · simp only [passMissed, judged_start, hb, if_false, ih3, List.filter_cons]
          by_cases hj : judged mi W cur n = n <;> simp [hj]

/-! ## The scoring effect in closed form -/

theorem missedCount_cons (e : TranslatedNote) (es : List TranslatedNote) :
    missedCount (e :: es) = (if e.state = UserMissed then 1 else 0) + missedCount es := by
  unfold missedCount
  by_cases he : e.state = UserMissed
  · simp [he, List.filter_cons, Nat.add_comm]
  · simp [he, List.filter_cons]

theorem missedCount_append (a b : List TranslatedNote) :
    missedCount (a ++ b) = missedCount a + missedCount b := by
  unfold missedCount; rw [List.filter_append, List.length_append]

theorem applyErased_effect (es : List TranslatedNote) (s : PlayingState) :
    (applyErased es s).stats.notes_user_could_have_played =
        s.stats.notes_user_could_have_played + (missedCount es : Int) ∧
    (applyErased es s).stats.speed_integral =
        s.stats.speed_integral + (missedCount es : Int) * s.song_speed ∧
    (applyErased es s).m_current_combo =
        (if 0 < missedCount es then 0 else s.m_current_combo) ∧
    (applyErased es s).stats.total_note_count = s.stats.total_note_count ∧
    (applyErased es s).stats.notes_user_actually_played = s.stats.notes_user_actually_played ∧
    (applyErased es s).song_speed = s.song_speed ∧
    (applyErased es s).track_properties = s.track_properties := by
  induction es generalizing s with
  | nil => simp [applyErased, missedCount]
  | cons e es ih =>
    rw [applyErased, missedCount_cons]
    by_cases he : e.state = UserMissed
    · rw [if_pos he, if_pos he]
      obtain ⟨h1, h2, h3, h4, h5, h6, h7⟩ := ih (Update_score_miss s)
      refine ⟨?_, ?_, ?_, h4, h5, h6, h7⟩
      · rw [h1]; simp only [Update_score_miss]; push_cast; ring
      · rw [h2]; simp only [Update_score_miss]; push_cast; ring
      · rw [h3]; simp only [Update_score_miss]
        split <;> simp
    · rw [if_neg he, if_neg he]
      simpa using ih s

/-! ## Identity of notes, and what a pass keeps and erases -/

theorem noteKey_judged (mi : Bool) (W cur : Int) (n : TranslatedNote) :
    noteKey (judged mi W cur n) = noteKey n := by
  unfold judged; split <;> rfl

theorem noteStep_judged (mi : Bool) (W cur : Int) (n : TranslatedNote) :
    NoteStep n (judged mi W cur n) := by
  unfold judged NoteStep
  split
  · rename_i hc
    simp only [Bool.and_eq_true, decide_eq_true_eq] at hc
    exact Or.inr ⟨hc.1.2, rfl⟩
  · exact Or.inl rfl

theorem judged_of_not_playable (mi : Bool) (W cur : Int) {n : TranslatedNote}
    (hn : n.state ≠ UserPlayable) : judged mi W cur n = n := by
  unfold judged
  rw [if_neg]
  simp [hn]

theorem noteStep_key {a b : TranslatedNote} (h : NoteStep a b) : noteKey b = noteKey a := by
  rcases h with rfl | ⟨_, rfl⟩ <;> rfl

theorem eq_of_noteKey_state {a b : TranslatedNote} (hk : noteKey a = noteKey b)
    (hs : a.state = b.state) : a = b := by
  cases a; cases b
  simp only [noteKey, Prod.mk.injEq] at hk
  simp only at hs
  obtain ⟨h1, h2, h3, h4⟩ := hk
  subst h1 h2 h3 h4 hs
  rfl

theorem lt_of_noteKey {lt : TranslatedNote → TranslatedNote → Bool} (h : NoteOrder lt)
    {a a2 b b2 : TranslatedNote} (ha : noteKey a = noteKey a2) (hb : noteKey b = noteKey b2) :
    lt a b = lt a2 b2 := by
  have ea : a2 = { a with state := a2.state } := eq_of_noteKey_state ha.symm rfl
  have eb : b2 = { b with state := b2.state } := eq_of_noteKey_state hb.symm rfl
  rw [ea, eb]
  exact ((h.state_left a _ a2.state).trans (h.state_right a b b2.state)).symm

theorem wellFormed_of_keys {lt : TranslatedNote → TranslatedNote → Bool} (h : NoteOrder lt)
    {l l2 : List TranslatedNote} (hs : List.Sublist (l2.map noteKey) (l.map noteKey))
    (hw : WellFormed lt l) : WellFormed lt l2 := by
  unfold WellFormed at *
  have key : ∀ m : List TranslatedNote,
      List.Pairwise (fun a b => lt a b = true) m ↔
      List.Pairwise (fun k1 k2 => ∀ a b, noteKey a = k1 → noteKey b = k2 → lt a b = true)
        (m.map noteKey) := by
    intro m
    rw [List.pairwise_map]
    apply List.Pairwise.iff
    intro a b
    constructor
    · intro hab a2 b2 ha hb
      rw [lt_of_noteKey h ha hb]; exact hab
    · intro hab; exact hab a b rfl rfl
  rw [key] at hw ⊢
  exact List.Pairwise.sublist hs hw

theorem wellFormed_unique {lt : TranslatedNote → TranslatedNote → Bool} (h : NoteOrder lt)
    {l : List TranslatedNote} (hw : WellFormed lt l) {a b : TranslatedNote}
    (ha : a ∈ l) (hb : b ∈ l) (hk : noteKey a = noteKey b) : a = b := by
  by_contra hne
  have hsym : List.Pairwise (fun a b => lt a b = true ∨ lt b a = true) l :=
    List.Pairwise.imp (fun hab => Or.inl hab) hw
  have := List.Pairwise.forall (fun x y hxy => Or.symm hxy) hsym ha hb hne
  have e1 : lt a b = lt a a := lt_of_noteKey h rfl hk.symm
  have e2 : lt b a = lt a a := lt_of_noteKey h hk.symm rfl
  rw [e1, e2, h.irrefl] at this
  simp at this

theorem pass_keys_sublist (mi : Bool) (W cur : Int) (l : List TranslatedNote) :
    List.Sublist ((passKept mi W cur l).map noteKey) (l.map noteKey) := by
  induction l with
  | nil => simp [passKept]
  | cons n rest ih =>
    simp only [passKept]
    split
    · simp [noteKey_judged]
    · split
      · exact List.Sublist.cons _ ih
      · simp only [List.map_cons, noteKey_judged]
        exact List.Sublist.cons₂ _ ih

theorem pass_keys_perm (mi : Bool) (W cur : Int) (l : List TranslatedNote) :
    List.Perm ((passKept mi W cur l ++ passErased mi W cur l).map noteKey) (l.map noteKey) := by
  induction l with
  | nil => simp [passKept, passErased]
  | cons n rest ih =>
    simp only [passKept, passErased]
    split
    · simp [noteKey_judged]
    · split
      · simp only [List.map_append, List.map_cons, noteKey_judged]
        rw [List.map_append] at ih
        exact List.Perm.trans List.perm_middle (List.Perm.cons _ ih)
      · simp only [List.cons_append, List.map_cons, noteKey_judged]
        exact List.Perm.cons _ ih

theorem pass_forward (mi : Bool) (W cur : Int) (l : List TranslatedNote) :
    ∀ n ∈ l, n ∈ passKept mi W cur l ++ passErased mi W cur l ∨
      judged mi W cur n ∈ passKept mi W cur l ++ passErased mi W cur l := by
  induction l with
  | nil => intro n hn; simp at hn
  | cons m rest ih =>
    intro n hn
    simp only [passKept, passErased]
    rcases List.mem_cons.mp hn with rfl | hn
    · split
      · right; simp
      · split <;> (right; simp)
    · split
      · left; simp [hn]
      · split
        · rcases ih n hn with h1 | h1
          · left; simp only [List.mem_append, List.mem_cons] at h1 ⊢; tauto
          · right; simp only [List.mem_append, List.mem_cons] at h1 ⊢; tauto
        · rcases ih n hn with h1 | h1
          · left; simp only [List.cons_append, List.mem_cons]; exact Or.inr h1
          · right; simp only [List.cons_append, List.mem_cons]; exact Or.inr h1

theorem pass_backward (mi : Bool) (W cur : Int) (l : List TranslatedNote) :
    ∀ x ∈ passKept mi W cur l ++ passErased mi W cur l, ∃ n ∈ l, NoteStep n x := by
  induction l with
  | nil => intro x hx; simp [passKept, passErased] at hx
  | cons m rest ih =>
    intro x hx
    simp only [passKept, passErased] at hx
    split at hx
    · simp only [List.append_nil, List.mem_cons] at hx
      rcases hx with rfl | hx
      · exact ⟨m, List.mem_cons_self _ _, noteStep_judged mi W cur m⟩
      · exact ⟨x, List.mem_cons_of_mem _ hx, Or.inl rfl⟩
    · split at hx
      · simp only [List.mem_append, List.mem_cons] at hx
        rcases hx with hx | rfl | hx
        · obtain ⟨n, hn, hs⟩ := ih x (List.mem_append.mpr (Or.inl hx))
          exact ⟨n, List.mem_cons_of_mem _ hn, hs⟩
        · exact ⟨m, List.mem_cons_self _ _, noteStep_judged mi W cur m⟩
        · obtain ⟨n, hn, hs⟩ := ih x (List.mem_append.mpr (Or.inr hx))
          exact ⟨n, List.mem_cons_of_mem _ hn, hs⟩
      · simp only [List.cons_append, List.mem_cons] at hx
        rcases hx with rfl | hx
        · exact ⟨m, List.mem_cons_self _ _, noteStep_judged mi W cur m⟩
        · obtain ⟨n, hn, hs⟩ := ih x hx
          exact ⟨n, List.mem_cons_of_mem _ hn, hs⟩

/-! ## One sweep and a run of sweeps -/

theorem noteStep_trans {a b c : TranslatedNote} (h1 : NoteStep a b) (h2 : NoteStep b c) :
    NoteStep a c := by
  rcases h1 with rfl | ⟨ha, rfl⟩
  · exact h2
  · rcases h2 with rfl | ⟨hb, _⟩
    · exact Or.inr ⟨ha, rfl⟩
    · exact absurd hb (by simp)

theorem sweep_props {lt : TranslatedNote → TranslatedNote → Bool} (h : NoteOrder lt)
    (W cur : Int) (s : PlayingState) (g : SweepLog) (hw : WellFormed lt s.m_notes) :
    ∃ s2 M E, Update_sweep_log lt W cur s g =
        some (s2, { missed := g.missed ++ M, erased := g.erased ++ E }) ∧
      WellFormed lt s2.m_notes ∧
      (∀ n ∈ s.m_notes, n.state ≠ UserPlayable → n ∈ s2.m_notes ++ E) ∧
      (∀ x ∈ s2.m_notes ++ E, ∃ n ∈ s.m_notes, NoteStep n x) ∧
      List.Perm ((s2.m_notes ++ E).map noteKey) (s.m_notes.map noteKey) ∧
      s2.stats.notes_user_could_have_played =
        s.stats.notes_user_could_have_played + (missedCount E : Int) ∧
      s2.stats.speed_integral = s.stats.speed_integral + (missedCount E : Int) * s.song_speed ∧
      s2.m_current_combo = (if 0 < missedCount E then 0 else s.m_current_combo) ∧
      s2.stats.total_note_count = s.stats.total_note_count ∧
      s2.stats.notes_user_actually_played = s.stats.notes_user_actually_played ∧
      s2.song_speed = s.song_speed ∧ s2.midi_in = s.midi_in ∧
      s2.track_properties = s.track_properties := by
  refine ⟨_, _, _, Update_sweep_log_eq h W cur s g hw, ?_, ?_, ?_, ?_, ?_⟩
  · exact wellFormed_of_keys h (pass_keys_sublist _ _ _ _) hw
  · intro n hn hst
    have := pass_forward s.midi_in W cur s.m_notes n hn
    rw [judged_of_not_playable _ _ _ hst] at this
    simpa [withNotes] using this
  · intro x hx
    exact pass_backward s.midi_in W cur s.m_notes x hx
  · exact pass_keys_perm _ _ _ _
  · obtain ⟨h1, h2, h3, h4, h5, h6, h7⟩ :=
      applyErased_effect (passErased s.midi_in W cur s.m_notes) s
    exact ⟨h1, h2, h3, h4, h5, h6, applyErased_midi_in _ _, h7⟩

theorem sweeps_props {lt : TranslatedNote → TranslatedNote → Bool} (h : NoteOrder lt)
    (W : Int) (frames : List Frame) :
    ∀ (s : PlayingState) (g : SweepLog), WellFormed lt s.m_notes →
    ∃ s2 M E, Update_sweeps lt W frames s g =
        some (s2, { missed := g.missed ++ M, erased := g.erased ++ E }) ∧
      WellFormed lt s2.m_notes ∧
      (∀ n ∈ s.m_notes, n.state ≠ UserPlayable → n ∈ s2.m_notes ++ E) ∧
      (∀ x ∈ s2.m_notes ++ E, ∃ n ∈ s.m_notes, NoteStep n x) ∧
      List.Perm ((s2.m_notes ++ E).map noteKey) (s.m_notes.map noteKey) ∧
      s2.stats.notes_user_could_have_played =
        s.stats.notes_user_could_have_played + (missedCount E : Int) ∧
      s2.m_current_combo = (if 0 < missedCount E then 0 else s.m_current_combo) ∧
      s2.stats.total_note_count = s.stats.total_note_count ∧
      s2.stats.notes_user_actually_played = s.stats.notes_user_actually_played ∧
      s2.midi_in = s.midi_in ∧ s2.track_properties = s.track_properties ∧
      (∀ v : Int, (∀ f ∈ frames, f.song_speed = v) →
        s2.stats.speed_integral = s.stats.speed_integral + (missedCount E : Int) * v) := by
  induction frames with
  | nil =>
    intro s g hw
    refine ⟨s, [], [], ?_, hw, ?_, ?_, ?_, ?_⟩
    · simp [Update_sweeps]
    · intro n hn _; simpa using hn
    · intro x hx; exact ⟨x, by simpa using hx, Or.inl rfl⟩
    · simp
    · simp [missedCount]
  | cons f fs ih =>
    intro s g hw
    obtain ⟨s1, M1, E1, e1, w1, a1, b1, p1, c1, i1, d1, t1, u1, _, m1, tp1⟩ :=
      sweep_props h W f.cur_time { s with song_speed := f.song_speed } g hw
    obtain ⟨s2, M2, E2, e2, w2, a2, b2, p2, c2, d2, t2, u2, m2, tp2, i2⟩ :=
      ih s1 { missed := g.missed ++ M1, erased := g.erased ++ E1 } w1
    refine ⟨s2, M1 ++ M2, E1 ++ E2, ?_, w2, ?_, ?_, ?_, ?_, ?_, ?_, ?_, ?_, ?_, ?_⟩
    · simp only [Update_sweeps, e1, e2, List.append_assoc]
    · intro n hn hst
      have := a1 n hn hst
      rcases List.mem_append.mp this with hk | he
      · have := a2 n hk hst
        simp only [List.mem_append] at this ⊢; tauto
      · simp only [List.mem_append]; tauto
    · intro x hx
      simp only [List.mem_append] at hx
      rcases hx with hx | hx | hx
      · obtain ⟨y, hy, hyx⟩ := b2 x (List.mem_append.mpr (Or.inl hx))
        obtain ⟨n, hn, hny⟩ := b1 y (List.mem_append.mpr (Or.inl hy))
        exact ⟨n, hn, noteStep_trans hny hyx⟩
      · exact b1 x (List.mem_append.mpr (Or.inr hx))
      · obtain ⟨y, hy, hyx⟩ := b2 x (List.mem_append.mpr (Or.inr hx))
        obtain ⟨n, hn, hny⟩ := b1 y (List.mem_append.mpr (Or.inl hy))
        exact ⟨n, hn, noteStep_trans hny hyx⟩
    · have q1 : List.Perm ((s2.m_notes ++ (E1 ++ E2)).map noteKey)
          (((s2.m_notes ++ E2) ++ E1).map noteKey) := by
        apply List.Perm.map
        rw [List.append_assoc]
        exact List.Perm.append_left _ List.perm_append_comm
      have q2 : List.Perm (((s2.m_notes ++ E2) ++ E1).map noteKey)
          ((s1.m_notes ++ E1).map noteKey) := by
        rw [List.map_append, List.map_append _ s1.m_notes]
        exact List.Perm.append_right _ p2
      exact (q1.trans q2).trans p1
    · rw [c2, c1, missedCount_append]; push_cast; ring
    · rw [d2, d1, missedCount_append]
      by_cases q1 : 0 < missedCount E1 <;> by_cases q2 : 0 < missedCount E2 <;>
        simp [q1, q2]
    · rw [t2, t1]
    · rw [u2, u1]
    · rw [m2, m1]
    · rw [tp2, tp1]
    · intro v hv
      have hf : f.song_speed = v := hv f (List.mem_cons_self _ _)
      rw [i2 v (fun f2 hf2 => hv f2 (List.mem_cons_of_mem _ hf2)), i1, missedCount_append]
      simp only [hf]
      push_cast
      ring

/-! ## SetupNoteState in closed form -/

theorem setupNote_key (tp : List TrackProperties) (n : TranslatedNote) :
    noteKey (setupNote tp n) = noteKey n := by
  unfold setupNote; split <;> rfl

theorem setupNote_idem (tp : List TrackProperties) (n : TranslatedNote) :
    setupNote tp (setupNote tp n) = setupNote tp n := by
  unfold setupNote
  cases hp : tp[n.track_id]? with
  | none => simp [hp]
  | some p => simp [hp]

theorem setupNote_with_state (tp : List TrackProperties) (n : TranslatedNote) :
    setupNote tp n = { n with state := (setupNote tp n).state } := by
  unfold setupNote; split <;> rfl

theorem SetupNoteState_loop_eq {lt : TranslatedNote → TranslatedNote → Bool} (h : NoteOrder lt)
    (tp : List TrackProperties) :
    ∀ (old acc : List TranslatedNote), WellFormed lt (acc ++ old) →
      SetupNoteState_loop lt tp old acc =
        if old.all (fun n => decide (n.track_id < tp.length)) = true then
          some (acc ++ old.map (setupNote tp))
        else none := by
  intro old
  induction old with
  | nil => intro acc _; simp [SetupNoteState_loop]
  | cons n old ih =>
    intro acc hw
    cases hp : tp[n.track_id]? with
    | none =>
      have hlen : ¬ n.track_id < tp.length := by
        intro hlt
        rw [List.getElem?_eq_getElem hlt] at hp
        exact Option.noConfusion hp
      simp [SetupNoteState_loop, hp, hlen]
    | some p =>
      have hlen : n.track_id < tp.length := by
        by_contra hlt
        rw [List.getElem?_eq_none (Nat.le_of_not_lt hlt)] at hp
        exact Option.noConfusion hp
      have hsn : setupNote tp n = { n with state := setupState p } := by
        simp [setupNote, hp]
      have hp2 := List.pairwise_append.mp hw
      have hins := set_insert_eq h ({ n with state := setupState p }) acc []
        (fun y hy => by rw [h.state_right]; exact hp2.2.2 y hy n (List.mem_cons_self _ _))
        (fun y hy => by simp at hy)
      have hw2 : WellFormed lt ((acc ++ [{ n with state := setupState p }]) ++ old) := by
        have := wellFormed_setState h (setupState p) hw
        simpa using this
      rw [List.append_nil] at hins
      have hstep : SetupNoteState_loop lt tp (n :: old) acc =
          SetupNoteState_loop lt tp old (acc ++ [{ n with state := setupState p }]) := by
        simp only [SetupNoteState_loop, hp]
        exact congrArg (SetupNoteState_loop lt tp old) (congrArg Prod.fst hins)
      rw [hstep, ih _ hw2]
      simp [hlen, hsn]

theorem SetupNoteState_eq {lt : TranslatedNote → TranslatedNote → Bool} (h : NoteOrder lt)
    (s : PlayingState) (hw : WellFormed lt s.m_notes) :
    SetupNoteState lt s =
      if s.m_notes.all (fun n => decide (n.track_id < s.track_properties.length)) = true then
        some (withNotes s (s.m_notes.map (setupNote s.track_properties)))
      else none := by
  unfold SetupNoteState
  rw [SetupNoteState_loop_eq h s.track_properties s.m_notes [] (by simpa using hw)]
  split <;> simp [withNotes]

/-! ## The concrete inputs are well-formed -/

theorem demoNotes_wellFormed : WellFormed byKey demoNotes := by
  unfold WellFormed demoNotes
  decide

/-! ## Miss detection with an input device attached -/

theorem judged_eq_self_iff (W cur : Int) (n : TranslatedNote) :
    judged true W cur n = n ↔ ¬ (n.state = UserPlayable ∧ n.start + Int.tdiv W 2 ≤ cur) := by
  unfold judged
  by_cases hc : n.state = UserPlayable ∧ n.start + Int.tdiv W 2 ≤ cur
  · have : ({ n with state := UserMissed } : TranslatedNote) ≠ n := by
      intro heq
      have := congrArg TranslatedNote.state heq
      rw [hc.1] at this
      exact NoteState.noConfusion this
    simp [hc, this]
  · have hc2 : ¬ (n.state = UserPlayable ∧ n.start + Int.tdiv W 2 ≤ cur) := hc
    rw [not_and] at hc
    simp only [Bool.true_and, Bool.and_eq_true, decide_eq_true_eq]
    rw [if_neg hc2]
    simp [hc2]

theorem judged_of_crossed (W cur : Int) {n : TranslatedNote} (hs : n.state = UserPlayable)
    (hc : n.start + Int.tdiv W 2 ≤ cur) :
    judged true W cur n = { n with state := UserMissed } := by
  unfold judged
  simp [hs, hc]

theorem wellFormed_nodup {lt : TranslatedNote → TranslatedNote → Bool} (h : NoteOrder lt)
    {l : List TranslatedNote} (hw : WellFormed lt l) : l.Nodup := by
  unfold WellFormed at hw
  apply List.Pairwise.imp _ hw
  intro a b hab heq
  subst heq
  rw [h.irrefl] at hab
  exact Bool.noConfusion hab

theorem mem_map_judged_unique {lt : TranslatedNote → TranslatedNote → Bool} (h : NoteOrder lt)
    {l : List TranslatedNote} (hw : WellFormed lt l) (mi : Bool) (W cur : Int)
    {n m : TranslatedNote} (hn : n ∈ l) (hm : m ∈ l) {x : TranslatedNote}
    (hx : judged mi W cur m = x) (hk : noteKey x = noteKey n) : m = n := by
  apply wellFormed_unique h hw hm hn
  rw [← hk, ← hx, noteKey_judged]

theorem demoNotes_sorted :
    List.Pairwise (fun a b : TranslatedNote => a.start ≤ b.start) demoState.m_notes := by
  unfold demoState demoNotes
  decide

/-! ## A second pass at the same position -/

theorem pass_idem (mi : Bool) (W cur : Int) (l : List TranslatedNote) :
    passKept mi W cur (passKept mi W cur l) = passKept mi W cur l ∧
    passErased mi W cur (passKept mi W cur l) = [] ∧
    passMissed mi W cur (passKept mi W cur l) = [] := by
  induction l with
  | nil => simp [passKept, passErased, passMissed]
  | cons n rest ih =>
    by_cases hb : n.start > cur
    · simp [passKept, passErased, passMissed, judged_start, judged_judged, hb]
    · by_cases hex : expired W cur n = true
      · simpa [passKept, judged_start, hb, hex] using ih
      · have hex2 : expired W cur n = false := by simpa using hex
        obtain ⟨i1, i2, i3⟩ := ih
        simp [passKept, passErased, passMissed, judged_start, judged_judged, hb, hex2,
          expired_judged, i1, i2, i3]

theorem Update_delta_zero_speed (delta_ms : Int) (m_paused : Bool) :
    Update_delta delta_ms 0 m_paused = 0 := by
  unfold Update_delta
  split <;> simp

theorem Update_delta_paused (delta_ms song_speed : Int) :
    Update_delta delta_ms song_speed true = 0 := by
  simp [Update_delta]

theorem sweep_fixed {lt : TranslatedNote → TranslatedNote → Bool} (h : NoteOrder lt)
    (W cur : Int) (t : PlayingState) (hw : WellFormed lt t.m_notes)
    (hK : passKept t.midi_in W cur t.m_notes = t.m_notes)
    (hE : passErased t.midi_in W cur t.m_notes = [])
    (hM : passMissed t.midi_in W cur t.m_notes = []) :
    Update_sweep_log lt W cur t SweepLog.empty = some (t, SweepLog.empty) := by
  rw [Update_sweep_log_eq h W cur t SweepLog.empty hw, hK, hE, hM]
  simp only [applyErased, withNotes_self, SweepLog.empty, List.append_nil]

theorem sweeps_fixed {lt : TranslatedNote → TranslatedNote → Bool}
    (W cur : Int) (t : PlayingState)
    (hfix : Update_sweep_log lt W cur t SweepLog.empty = some (t, SweepLog.empty)) (k : Nat) :
    Update_sweeps lt W (List.replicate k { cur_time := cur, song_speed := t.song_speed })
      t SweepLog.empty = some (t, SweepLog.empty) := by
  induction k with
  | zero => rfl
  | succ k ih =>
    have hsame : ({ t with song_speed := t.song_speed } : PlayingState) = t := by
      cases t; rfl
    simp only [List.replicate_succ, Update_sweeps, hsame, hfix]
    exact ih

/-! ## Notes the pass visits -/

theorem passErased_expired (mi : Bool) (W cur : Int) (l : List TranslatedNote) :
    ∀ x ∈ passErased mi W cur l, expired W cur x = true := by
  induction l with
  | nil => intro x hx; simp [passErased] at hx
  | cons m rest ih =>
    intro x hx
    simp only [passErased] at hx
    split at hx
    · simp at hx
    · split at hx
      · rename_i hex
        rcases List.mem_cons.mp hx with rfl | hx
        · rw [expired_judged]; exact hex
        · exact ih x hx
      · exact ih x hx

theorem passKept_not_expired (mi : Bool) (W cur : Int) (l : List TranslatedNote)
    (hs : List.Pairwise (fun a b => a.start ≤ b.start) l) :
    ∀ x ∈ passKept mi W cur l, x.start ≤ cur → expired W cur x = false := by
  induction l with
  | nil => intro x hx; simp [passKept] at hx
  | cons m rest ih =>
    have hs2 := List.pairwise_cons.mp hs
    intro x hx hstart
    simp only [passKept] at hx
    split at hx
    · rename_i hb
      rw [judged_start] at hb
      rcases List.mem_cons.mp hx with rfl | hx
      · rw [judged_start] at hstart; omega
      · have := hs2.1 x hx; omega
    · split at hx
      · exact ih hs2.2 x hx hstart
      · rename_i hex
        rcases List.mem_cons.mp hx with rfl | hx
        · rw [expired_judged]; simpa using hex
        · exact ih hs2.2 x hx hstart

theorem pass_visited (mi : Bool) (W cur : Int) (l : List TranslatedNote)
    (hs : List.Pairwise (fun a b => a.start ≤ b.start) l) :
    ∀ n ∈ l, n.start ≤ cur →
      (expired W cur n = true → judged mi W cur n ∈ passErased mi W cur l) ∧
      (expired W cur n = false → judged mi W cur n ∈ passKept mi W cur l) := by
  induction l with
  | nil => intro n hn; simp at hn
  | cons m rest ih =>
    have hs2 := List.pairwise_cons.mp hs
    intro n hn hstart
    have hm : ¬ (judged mi W cur m).start > cur := by
      rw [judged_start]
      rcases List.mem_cons.mp hn with rfl | hn
      · omega
      · have := hs2.1 n hn; omega
    simp only [passErased, passKept, if_neg hm]
    rcases List.mem_cons.mp hn with rfl | hn
    · constructor
      · intro hex; simp [hex]
      · intro hex; simp [hex]
    · obtain ⟨i1, i2⟩ := ih hs2.2 n hn hstart
      constructor
      · intro hex
        split
        · exact List.mem_cons_of_mem _ (i1 hex)
        · exact i1 hex
      · intro hex
        split
        · exact i2 hex
        · exact List.mem_cons_of_mem _ (i2 hex)

theorem scenario_reset (midi_in : Bool) :
    ResetSong byKey [scenarioNote] (scenarioSession midi_in) =
      some { m_notes := [{ scenarioNote with state := UserPlayable }], m_current_combo := 0,
             stats := { SongStatistics.zero with total_note_count := 1 }, song_speed := 100,
             midi_in := midi_in, track_properties := [{ mode := Mode.ModeYouPlay }] } := by
  cases midi_in <;> decide

/-! # The properties of the specification, C1 to C10 -/

/-! ## C1: a playable note is marked missed exactly when its deadline is crossed -/

/-- C1. In the judgment sweep with an input device attached, on a well-formed set
ordered by start time, with `NoteWindowLength >= 0`, at every `cur_time`: the sweep
returns, and a note that is `UserPlayable` before it ends the sweep as `UserMissed`
(in the set, or among the notes the sweep erased) if and only if
`start + NoteWindowLength / 2 <= cur_time`; otherwise it is still in the set,
unchanged, and it is not erased while `UserPlayable`.  The notes on which the miss
write was performed are exactly the `UserPlayable` notes whose deadline was crossed,
each once. -/
theorem sweep_marks_missed_iff_deadline (lt : TranslatedNote → TranslatedNote → Bool)
    (h : NoteOrder lt) (NoteWindowLength cur_time : Int) (s : PlayingState)
    (hW : 0 ≤ NoteWindowLength) (hin : s.midi_in = true) (hw : WellFormed lt s.m_notes)
    (hs : List.Pairwise (fun a b => a.start ≤ b.start) s.m_notes) :
    ∃ s2 g, Update_sweep_log lt NoteWindowLength cur_time s SweepLog.empty = some (s2, g) ∧
      (∀ n ∈ s.m_notes, n.state = UserPlayable →
        (({ n with state := UserMissed } : TranslatedNote) ∈ s2.m_notes ++ g.erased ↔
          n.start + Int.tdiv NoteWindowLength 2 ≤ cur_time) ∧
        (n ∈ s2.m_notes ↔ ¬ (n.start + Int.tdiv NoteWindowLength 2 ≤ cur_time)) ∧
        n ∉ g.erased) ∧
      g.missed = s.m_notes.filter (fun n =>
        decide (n.state = UserPlayable ∧ n.start + Int.tdiv NoteWindowLength 2 ≤ cur_time)) ∧
      g.missed.Nodup := by
  obtain ⟨hK, hE, hM⟩ := pass_sorted s.midi_in cur_time hW s.m_notes hs
  rw [hin] at hK hE hM
  have hmem : ∀ x, x ∈ passKept true NoteWindowLength cur_time s.m_notes ++
        passErased true NoteWindowLength cur_time s.m_notes ↔
      ∃ m ∈ s.m_notes, judged true NoteWindowLength cur_time m = x := by
    intro x
    rw [hK, hE]
    simp only [List.mem_append, List.mem_map, List.mem_filter]
    constructor
    · rintro (⟨m, ⟨hm, _⟩, hx⟩ | ⟨m, ⟨hm, _⟩, hx⟩) <;> exact ⟨m, hm, hx⟩
    · rintro ⟨m, hm, hx⟩
      cases he : expired NoteWindowLength cur_time m with
      | true => exact Or.inr ⟨m, ⟨hm, he⟩, hx⟩
      | false => exact Or.inl ⟨m, ⟨hm, by simp [he]⟩, hx⟩
  have hMeq : passMissed true NoteWindowLength cur_time s.m_notes =
      s.m_notes.filter (fun n =>
        decide (n.state = UserPlayable ∧ n.start + Int.tdiv NoteWindowLength 2 ≤ cur_time)) := by
    rw [hM]
    apply List.filter_congr
    intro n _
    have := judged_eq_self_iff NoteWindowLength cur_time n
    by_cases hc : n.state = UserPlayable ∧ n.start + Int.tdiv NoteWindowLength 2 ≤ cur_time
    · simp [hc, this]
    · simp only [ne_eq, this, hc, not_false_eq_true, not_true_eq_false, decide_False]
  refine ⟨_, _, Update_sweep_log_eq h NoteWindowLength cur_time s SweepLog.empty hw, ?_, ?_, ?_⟩
  · intro n hn hst
    rw [hin]
    simp only [withNotes, SweepLog.empty, List.nil_append]
    refine ⟨?_, ?_, ?_⟩
    · rw [hmem]
      constructor
      · rintro ⟨m, hm, hx⟩
        have hmn : m = n := mem_map_judged_unique h hw true NoteWindowLength cur_time hn hm hx rfl
        subst hmn
        by_contra hc
        have hself := (judged_eq_self_iff NoteWindowLength cur_time m).mpr (fun q => hc q.2)
        rw [hself] at hx
        have := congrArg TranslatedNote.state hx
        rw [hst] at this
        exact NoteState.noConfusion this
      · intro hc
        exact ⟨n, hn, judged_of_crossed NoteWindowLength cur_time hst hc⟩
    · rw [hK]
      simp only [List.mem_map, List.mem_filter]
      constructor
      · rintro ⟨m, ⟨hm, _⟩, hx⟩
        have hmn : m = n := mem_map_judged_unique h hw true NoteWindowLength cur_time hn hm hx rfl
        subst hmn
        intro hc
        exact (judged_eq_self_iff NoteWindowLength cur_time m).mp hx ⟨hst, hc⟩
      · intro hc
        refine ⟨n, ⟨hn, ?_⟩, (judged_eq_self_iff NoteWindowLength cur_time n).mpr (fun q => hc q.2)⟩
        simp only [expired, Bool.not_eq_true', decide_eq_false_iff_not, not_and, not_lt]
        intro _; omega
    · rw [hE]
      simp only [List.mem_map, List.mem_filter, not_exists, not_and, and_imp]
      intro m hm hex hx
      have hmn : m = n := mem_map_judged_unique h hw true NoteWindowLength cur_time hn hm hx rfl
      subst hmn
      have hnc := (judged_eq_self_iff NoteWindowLength cur_time m).mp hx
      simp only [expired, decide_eq_true_eq] at hex
      apply hnc
      exact ⟨hst, by omega⟩
  · rw [hin]
    simp only [SweepLog.empty, List.nil_append]
    exact hMeq
  · rw [hin]
    simp only [SweepLog.empty, List.nil_append, hMeq]
    exact List.Nodup.filter _ (wellFormed_nodup h hw)

theorem sweep_marks_missed_iff_deadline_witness :
    (0 : Int) ≤ 300000 ∧ demoState.midi_in = true ∧ WellFormed byKey demoState.m_notes ∧
    List.Pairwise (fun a b : TranslatedNote => a.start ≤ b.start) demoState.m_notes ∧
    ∃ s2 g, Update_sweep_log byKey 300000 1200000 demoState SweepLog.empty = some (s2, g) ∧
      (∀ n ∈ demoState.m_notes, n.state = UserPlayable →
        (({ n with state := UserMissed } : TranslatedNote) ∈ s2.m_notes ++ g.erased ↔
          n.start + Int.tdiv 300000 2 ≤ 1200000) ∧
        (n ∈ s2.m_notes ↔ ¬ (n.start + Int.tdiv 300000 2 ≤ 1200000)) ∧
        n ∉ g.erased) ∧
      g.missed = demoState.m_notes.filter (fun n =>
        decide (n.state = UserPlayable ∧ n.start + Int.tdiv 300000 2 ≤ 1200000)) ∧
      g.missed.Nodup :=
  ⟨by decide, rfl, demoNotes_wellFormed, demoNotes_sorted,
    sweep_marks_missed_iff_deadline byKey byKey_noteOrder 300000 1200000 demoState
      (by decide) rfl demoNotes_wellFormed demoNotes_sorted⟩

/-! ## C2: a miss is scored once, when the note is erased -/

/-- C2. On a well-formed set, for every sweep: with `k` the number of notes the sweep
erases whose state when erased is `UserMissed` (those marked earlier in the same
sweep included), `notes_user_could_have_played` grows by exactly `k`,
`speed_integral` by exactly `k * song_speed`, and the combo becomes 0 when `k > 0`
and is unchanged when `k = 0` (so marking a note without erasing it changes none of
them).  Over every sequence of sweeps the counter grows by the number of erased
`UserMissed` notes (and `speed_integral` by that number times the speed, when the
speed is the same in every frame), and the final set together with the erased notes
holds each note of the initial set exactly once: no note is erased, hence scored,
twice. -/
theorem sweep_scores_each_removed_miss_once (lt : TranslatedNote → TranslatedNote → Bool)
    (h : NoteOrder lt) (NoteWindowLength : Int) (s : PlayingState)
    (hw : WellFormed lt s.m_notes) :
    (∀ cur_time : Int, ∃ s2 g,
      Update_sweep_log lt NoteWindowLength cur_time s SweepLog.empty = some (s2, g) ∧
      List.Perm ((s2.m_notes ++ g.erased).map noteKey) (s.m_notes.map noteKey) ∧
      s2.stats.notes_user_could_have_played =
        s.stats.notes_user_could_have_played + (missedCount g.erased : Int) ∧
      s2.stats.speed_integral =
        s.stats.speed_integral + (missedCount g.erased : Int) * s.song_speed ∧
      s2.m_current_combo = (if 0 < missedCount g.erased then 0 else s.m_current_combo)) ∧
    (∀ frames : List Frame, ∃ s2 g,
      Update_sweeps lt NoteWindowLength frames s SweepLog.empty = some (s2, g) ∧
      List.Perm ((s2.m_notes ++ g.erased).map noteKey) (s.m_notes.map noteKey) ∧
      s2.stats.notes_user_could_have_played =
        s.stats.notes_user_could_have_played + (missedCount g.erased : Int) ∧
      s2.m_current_combo = (if 0 < missedCount g.erased then 0 else s.m_current_combo) ∧
      (∀ v : Int, (∀ f ∈ frames, f.song_speed = v) →
        s2.stats.speed_integral =
          s.stats.speed_integral + (missedCount g.erased : Int) * v)) := by
  constructor
  · intro cur_time
    obtain ⟨s2, M, E, e, _, _, _, p, c, i, d, _⟩ :=
      sweep_props h NoteWindowLength cur_time s SweepLog.empty hw
    refine ⟨s2, _, e, ?_, ?_, ?_, ?_⟩ <;> simp only [SweepLog.empty, List.nil_append]
    · exact p
    · exact c
    · exact i
    · exact d
  · intro frames
    obtain ⟨s2, M, E, e, _, _, _, p, c, d, _, _, _, _, i⟩ :=
      sweeps_props h NoteWindowLength frames s SweepLog.empty hw
    refine ⟨s2, _, e, ?_, ?_, ?_, ?_⟩ <;> simp only [SweepLog.empty, List.nil_append]
    · exact p
    · exact c
    · exact d
    · exact i

theorem sweep_scores_each_removed_miss_once_witness :
    WellFormed byKey demoState.m_notes ∧
    (∀ cur_time : Int, ∃ s2 g,
      Update_sweep_log byKey 300000 cur_time demoState SweepLog.empty = some (s2, g) ∧
      List.Perm ((s2.m_notes ++ g.erased).map noteKey) (demoState.m_notes.map noteKey) ∧
      s2.stats.notes_user_could_have_played =
        demoState.stats.notes_user_could_have_played + (missedCount g.erased : Int) ∧
      s2.stats.speed_integral =
        demoState.stats.speed_integral + (missedCount g.erased : Int) * demoState.song_speed ∧
      s2.m_current_combo =
        (if 0 < missedCount g.erased then 0 else demoState.m_current_combo)) ∧
    (∀ frames : List Frame, ∃ s2 g,
      Update_sweeps byKey 300000 frames demoState SweepLog.empty = some (s2, g) ∧
      List.Perm ((s2.m_notes ++ g.erased).map noteKey) (demoState.m_notes.map noteKey) ∧
      s2.stats.notes_user_could_have_played =
        demoState.stats.notes_user_could_have_played + (missedCount g.erased : Int) ∧
      s2.m_current_combo =
        (if 0 < missedCount g.erased then 0 else demoState.m_current_combo) ∧
      (∀ v : Int, (∀ f ∈ frames, f.song_speed = v) →
        s2.stats.speed_integral =
          demoState.stats.speed_integral + (missedCount g.erased : Int) * v)) :=
  ⟨demoNotes_wellFormed,
    sweep_scores_each_removed_miss_once byKey byKey_noteOrder 300000 demoState
      demoNotes_wellFormed⟩

/-! ## C3: the sweep erases exactly the expired notes -/

/-- C3. On a well-formed set ordered by start time, with `NoteWindowLength >= 0`, at
every `cur_time`: the sweep returns, and the set afterwards is the set before, in
the same order, without exactly the notes with `end < cur_time` and
`start + NoteWindowLength / 2 < cur_time` (each remaining note as the miss detection
left it); the erased notes are exactly those.  This is what a pass over the whole
set computes: the early exit loses nothing, and no note is added. -/
theorem sweep_removes_exactly_expired (lt : TranslatedNote → TranslatedNote → Bool)
    (h : NoteOrder lt) (NoteWindowLength cur_time : Int) (s : PlayingState)
    (hW : 0 ≤ NoteWindowLength) (hw : WellFormed lt s.m_notes)
    (hs : List.Pairwise (fun a b => a.start ≤ b.start) s.m_notes) :
    ∃ s2 g, Update_sweep_log lt NoteWindowLength cur_time s SweepLog.empty = some (s2, g) ∧
      Update_sweep lt NoteWindowLength cur_time s = some s2 ∧
      s2.m_notes.map noteKey =
        (s.m_notes.filter (fun n => decide (¬ (n.end_ < cur_time ∧
          n.start + Int.tdiv NoteWindowLength 2 < cur_time)))).map noteKey ∧
      g.erased.map noteKey =
        (s.m_notes.filter (fun n => decide (n.end_ < cur_time ∧
          n.start + Int.tdiv NoteWindowLength 2 < cur_time))).map noteKey ∧
      s2.m_notes =
        (s.m_notes.filter (fun n => decide (¬ (n.end_ < cur_time ∧
          n.start + Int.tdiv NoteWindowLength 2 < cur_time)))).map
            (judged s.midi_in NoteWindowLength cur_time) ∧
      (∀ x ∈ s2.m_notes, ∃ n ∈ s.m_notes, NoteStep n x) := by
  obtain ⟨hK, hE, _⟩ := pass_sorted s.midi_in cur_time hW s.m_notes hs
  have hlog := Update_sweep_log_eq h NoteWindowLength cur_time s SweepLog.empty hw
  have hf1 : (fun n => !(expired NoteWindowLength cur_time n)) =
      (fun n : TranslatedNote => decide (¬ (n.end_ < cur_time ∧
          n.start + Int.tdiv NoteWindowLength 2 < cur_time))) := by
    funext n
    unfold expired
    by_cases hc : n.end_ < cur_time ∧ n.start + Int.tdiv NoteWindowLength 2 < cur_time
    · simp only [hc, and_self, decide_True, Bool.not_true, not_true_eq_false, decide_False]
    · simp only [hc, decide_False, Bool.not_false, not_false_eq_true, decide_True]
  have hf2 : (fun n => expired NoteWindowLength cur_time n) =
      (fun n : TranslatedNote => decide (n.end_ < cur_time ∧
          n.start + Int.tdiv NoteWindowLength 2 < cur_time)) := by
    funext n; simp [expired]
  rw [hf1] at hK
  rw [hf2] at hE
  have hmk : ∀ l : List TranslatedNote,
      (l.map (judged s.midi_in NoteWindowLength cur_time)).map noteKey = l.map noteKey := by
    intro l
    rw [List.map_map]
    apply List.map_congr_left
    intro n _
    exact noteKey_judged _ _ _ n
  refine ⟨_, _, hlog, ?_, ?_, ?_, ?_, ?_⟩
  · unfold Update_sweep; rw [hlog]; rfl
  · simp only [withNotes, hK, hmk]
  · simp only [SweepLog.empty, List.nil_append, hE, hmk]
  · simp only [withNotes, hK]
  · intro x hx
    exact pass_backward s.midi_in NoteWindowLength cur_time s.m_notes x
      (List.mem_append.mpr (Or.inl hx))

theorem sweep_removes_exactly_expired_witness :
    (0 : Int) ≤ 300000 ∧ WellFormed byKey demoState.m_notes ∧
    List.Pairwise (fun a b : TranslatedNote => a.start ≤ b.start) demoState.m_notes ∧
    ∃ s2 g, Update_sweep_log byKey 300000 1200000 demoState SweepLog.empty = some (s2, g) ∧
      Update_sweep byKey 300000 1200000 demoState = some s2 ∧
      s2.m_notes.map noteKey =
        (demoState.m_notes.filter (fun n => decide (¬ (n.end_ < 1200000 ∧
          n.start + Int.tdiv 300000 2 < 1200000)))).map noteKey ∧
      g.erased.map noteKey =
        (demoState.m_notes.filter (fun n => decide (n.end_ < 1200000 ∧
          n.start + Int.tdiv 300000 2 < 1200000))).map noteKey ∧
      s2.m_notes =
        (demoState.m_notes.filter (fun n => decide (¬ (n.end_ < 1200000 ∧
          n.start + Int.tdiv 300000 2 < 1200000)))).map
            (judged demoState.midi_in 300000 1200000) ∧
      (∀ x ∈ s2.m_notes, ∃ n ∈ demoState.m_notes, NoteStep n x) :=
  ⟨by decide, demoNotes_wellFormed, demoNotes_sorted,
    sweep_removes_exactly_expired byKey byKey_noteOrder 300000 1200000 demoState
      (by decide) demoNotes_wellFormed demoNotes_sorted⟩

/-! ## C4: the only state change is UserPlayable to UserMissed -/

/-- C4. On a well-formed set, over every sequence of sweeps (a single sweep
included): the sweeps return; a note whose state is `UserHit`, `UserMissed` or
`AutoPlayed` is found unchanged in the final set or among the erased notes (as it
was when erased); every note of the final set or erased comes from a note of the
initial set, unchanged or changed from `UserPlayable` to `UserMissed` and in no other
way; and the note of the final set with the identity of a note that was not
`UserPlayable` is that note, state included. -/
theorem sweep_only_changes_playable_to_missed (lt : TranslatedNote → TranslatedNote → Bool)
    (h : NoteOrder lt) (NoteWindowLength : Int) (frames : List Frame) (s : PlayingState)
    (hw : WellFormed lt s.m_notes) :
    ∃ s2 g, Update_sweeps lt NoteWindowLength frames s SweepLog.empty = some (s2, g) ∧
      (∀ n ∈ s.m_notes, n.state ≠ UserPlayable → n ∈ s2.m_notes ++ g.erased) ∧
      (∀ x ∈ s2.m_notes ++ g.erased, ∃ n ∈ s.m_notes,
        x = n ∨ (n.state = UserPlayable ∧ x = { n with state := UserMissed })) ∧
      (∀ n ∈ s.m_notes, n.state ≠ UserPlayable →
        ∀ x ∈ s2.m_notes, noteKey x = noteKey n → x = n) := by
  obtain ⟨s2, M, E, e, _, a, b, _⟩ :=
    sweeps_props h NoteWindowLength frames s SweepLog.empty hw
  refine ⟨s2, _, e, ?_, ?_, ?_⟩ <;> try simp only [SweepLog.empty, List.nil_append]
  · exact a
  · exact b
  · intro n hn hst x hx hk
    obtain ⟨m, hm, hstep⟩ := b x (List.mem_append.mpr (Or.inl hx))
    have hmn : m = n := wellFormed_unique h hw hm hn ((noteStep_key hstep).symm.trans hk)
    subst hmn
    rcases hstep with rfl | ⟨hp, _⟩
    · rfl
    · exact absurd hp hst

theorem sweep_only_changes_playable_to_missed_witness :
    WellFormed byKey demoState.m_notes ∧
    ∃ s2 g, Update_sweeps byKey 300000
        [{ cur_time := 1200000, song_speed := 100 }, { cur_time := 1600000, song_speed := 200 }]
        demoState SweepLog.empty = some (s2, g) ∧
      (∀ n ∈ demoState.m_notes, n.state ≠ UserPlayable → n ∈ s2.m_notes ++ g.erased) ∧
      (∀ x ∈ s2.m_notes ++ g.erased, ∃ n ∈ demoState.m_notes,
        x = n ∨ (n.state = UserPlayable ∧ x = { n with state := UserMissed })) ∧
      (∀ n ∈ demoState.m_notes, n.state ≠ UserPlayable →
        ∀ x ∈ s2.m_notes, noteKey x = noteKey n → x = n) :=
  ⟨demoNotes_wellFormed,
    sweep_only_changes_playable_to_missed byKey byKey_noteOrder 300000
      [{ cur_time := 1200000, song_speed := 100 }, { cur_time := 1600000, song_speed := 200 }]
      demoState demoNotes_wellFormed⟩

/-! ## C5: the score multiplier -/

/-- C5. For every combo `>= 0`, `CalculateScoreMultiplier` returns
`min(5, 1 + combo / 10)` over the rationals: it is 1 at combo 0, 2 at combo 10, 5 at
combo 40 and still 5 at combo 1000; it is non-decreasing in the combo, never below 1,
never above 5, and equal to 5 for every combo `>= 40`. -/
theorem calculateScoreMultiplier_saturates (combo : Int) (hc : 0 ≤ combo) :
    CalculateScoreMultiplier combo = min 5 (1 + (combo : ℚ) / 10) ∧
    CalculateScoreMultiplier 0 = 1 ∧
    CalculateScoreMultiplier 10 = 2 ∧
    CalculateScoreMultiplier 40 = 5 ∧
    CalculateScoreMultiplier 1000 = 5 ∧
    (∀ c2 : Int, combo ≤ c2 → CalculateScoreMultiplier combo ≤ CalculateScoreMultiplier c2) ∧
    1 ≤ CalculateScoreMultiplier combo ∧
    CalculateScoreMultiplier combo ≤ 5 ∧
    (40 ≤ combo → CalculateScoreMultiplier combo = 5) := by
  have hq : (0 : ℚ) ≤ (combo : ℚ) := by exact_mod_cast hc
  refine ⟨rfl, ?_, ?_, ?_, ?_, ?_, ?_, ?_, ?_⟩
  · norm_num [CalculateScoreMultiplier]
  · norm_num [CalculateScoreMultiplier]
  · norm_num [CalculateScoreMultiplier]
  · norm_num [CalculateScoreMultiplier]
  · intro c2 h2
    have h2q : (combo : ℚ) ≤ (c2 : ℚ) := by exact_mod_cast h2
    simp only [CalculateScoreMultiplier]
    apply min_le_min (le_refl _)
    linarith
  · simp only [CalculateScoreMultiplier]
    apply le_min <;> linarith
  · simp only [CalculateScoreMultiplier]
    exact min_le_left _ _
  · intro h40
    have h40q : (40 : ℚ) ≤ (combo : ℚ) := by exact_mod_cast h40
    simp only [CalculateScoreMultiplier]
    apply min_eq_left
    linarith

theorem calculateScoreMultiplier_saturates_witness :
    (0 : Int) ≤ 25 ∧ CalculateScoreMultiplier 25 = min 5 (1 + ((25 : Int) : ℚ) / 10) ∧
    1 ≤ CalculateScoreMultiplier 25 ∧ CalculateScoreMultiplier 25 ≤ 5 :=
  have h := calculateScoreMultiplier_saturates 25 (by decide)
  ⟨by decide, h.1, h.2.2.2.2.2.2.1, h.2.2.2.2.2.2.2.1⟩

/-! ## C6: the states SetupNoteState assigns -/

/-- C6. After `SetupNoteState`, on a well-formed set whose notes all have a valid
`track_id`: the call returns; every note of the rebuilt set is `UserPlayable` if and
only if its track has mode `ModeYouPlay`, and `AutoPlayed` otherwise, whatever its
state was before; and the rebuilt set has the same number of notes, with the same
`(track_id, start, end)` values (and the same pitch) in the same order. -/
theorem setupNoteState_assigns_states (lt : TranslatedNote → TranslatedNote → Bool)
    (h : NoteOrder lt) (s : PlayingState) (hw : WellFormed lt s.m_notes)
    (hv : ∀ n ∈ s.m_notes, n.track_id < s.track_properties.length) :
    ∃ s2, SetupNoteState lt s = some s2 ∧
      (∀ n ∈ s2.m_notes, ∃ p, s.track_properties[n.track_id]? = some p ∧
        (n.state = UserPlayable ↔ p.mode = Mode.ModeYouPlay) ∧
        (p.mode ≠ Mode.ModeYouPlay → n.state = AutoPlayed)) ∧
      s2.m_notes.length = s.m_notes.length ∧
      s2.m_notes.map (fun n => (n.track_id, n.start, n.end_)) =
        s.m_notes.map (fun n => (n.track_id, n.start, n.end_)) ∧
      s2.m_notes.map noteKey = s.m_notes.map noteKey ∧
      s2.track_properties = s.track_properties ∧ s2.stats = s.stats ∧
      s2.m_current_combo = s.m_current_combo := by
  have hall : s.m_notes.all (fun n => decide (n.track_id < s.track_properties.length)) = true := by
    rw [List.all_eq_true]; intro n hn; simpa using hv n hn
  refine ⟨withNotes s (s.m_notes.map (setupNote s.track_properties)),
    by rw [SetupNoteState_eq h s hw, if_pos hall], ?_, ?_, ?_, ?_, rfl, rfl, rfl⟩
  · intro n hn
    simp only [withNotes, List.mem_map] at hn
    obtain ⟨m, hm, rfl⟩ := hn
    have hlt := hv m hm
    have hk : (setupNote s.track_properties m).track_id = m.track_id :=
      congrArg (fun k => k.2.2.2) (setupNote_key s.track_properties m)
    refine ⟨s.track_properties[m.track_id], ?_, ?_⟩
    · rw [hk, List.getElem?_eq_getElem hlt]
    · have hst : (setupNote s.track_properties m).state =
          setupState s.track_properties[m.track_id] := by
        simp [setupNote, List.getElem?_eq_getElem hlt]
      rw [hst]
      unfold setupState
      by_cases hm : (s.track_properties[m.track_id]).mode = Mode.ModeYouPlay <;> simp [hm]
  · simp [withNotes]
  · simp only [withNotes, List.map_map]
    apply List.map_congr_left
    intro n _
    have hk := setupNote_key s.track_properties n
    simp only [noteKey, Prod.mk.injEq] at hk
    simp [hk.1, hk.2.1, hk.2.2.2]
  · simp only [withNotes, List.map_map]
    apply List.map_congr_left
    intro n _
    exact setupNote_key s.track_properties n

theorem setupNoteState_assigns_states_witness :
    WellFormed byKey demoState.m_notes ∧
    (∀ n ∈ demoState.m_notes, n.track_id < demoState.track_properties.length) ∧
    ∃ s2, SetupNoteState byKey demoState = some s2 ∧
      (∀ n ∈ s2.m_notes, ∃ p, demoState.track_properties[n.track_id]? = some p ∧
        (n.state = UserPlayable ↔ p.mode = Mode.ModeYouPlay) ∧
        (p.mode ≠ Mode.ModeYouPlay → n.state = AutoPlayed)) ∧
      s2.m_notes.length = demoState.m_notes.length ∧
      s2.m_notes.map (fun n => (n.track_id, n.start, n.end_)) =
        demoState.m_notes.map (fun n => (n.track_id, n.start, n.end_)) ∧
      s2.m_notes.map noteKey = demoState.m_notes.map noteKey ∧
      s2.track_properties = demoState.track_properties ∧ s2.stats = demoState.stats ∧
      s2.m_current_combo = demoState.m_current_combo :=
  ⟨demoNotes_wellFormed, by decide,
    setupNoteState_assigns_states byKey byKey_noteOrder demoState demoNotes_wellFormed
      (by decide)⟩

/-! ## C7: the single-note scenario -/

/-- C7 (as stated, false). With no input device attached, the freshly reset session
holding the one user-playable note [1,000,000; 1,500,000], swept at song position
1,650,001 with half-window 150,000: the note is not marked `UserMissed` (no miss
write is performed); it is erased while still `UserPlayable`, and
`notes_user_could_have_played` stays 0 instead of becoming 1. -/
theorem scenario_without_input_device_scores_nothing :
    ∃ s0 s1 g, ResetSong byKey [scenarioNote] (scenarioSession false) = some s0 ∧
      s0.m_notes = [{ scenarioNote with state := UserPlayable }] ∧
      Update_sweep_log byKey 300000 1650001 s0 SweepLog.empty = some (s1, g) ∧
      g.missed = [] ∧
      g.erased = [{ scenarioNote with state := UserPlayable }] ∧
      s1.m_notes = [] ∧
      s1.stats.notes_user_could_have_played = 0 ∧
      s1.stats.notes_user_could_have_played ≠ 1 :=
  ⟨{ m_notes := [{ scenarioNote with state := UserPlayable }], m_current_combo := 0,
     stats := { SongStatistics.zero with total_note_count := 1 }, song_speed := 100,
     midi_in := false, track_properties := [{ mode := Mode.ModeYouPlay }] },
   { m_notes := [], m_current_combo := 0,
     stats := { SongStatistics.zero with total_note_count := 1 }, song_speed := 100,
     midi_in := false, track_properties := [{ mode := Mode.ModeYouPlay }] },
   { missed := [], erased := [{ scenarioNote with state := UserPlayable }] },
   by decide, rfl, by decide, rfl, rfl, rfl, rfl, by decide⟩

/-- C7 (amended). The freshly reset session holds the one note as `UserPlayable`,
with statistics zero and combo 0.  Swept at a song position past 1,650,000 with
half-window 150,000 and speed 100: with an input device attached the note is marked
`UserMissed` and, the position being past `end`, erased in that same sweep,
`notes_user_could_have_played` becomes 1 and the combo is 0; with no input device
attached the note is not marked, it is erased while `UserPlayable`,
`notes_user_could_have_played` stays 0 and the combo is 0. -/
theorem scenario_single_note_miss (NoteWindowLength cur_time : Int)
    (hW : Int.tdiv NoteWindowLength 2 = 150000) (hc : 1650000 < cur_time) :
    (∃ s0 s1 g, ResetSong byKey [scenarioNote] (scenarioSession true) = some s0 ∧
      s0.m_notes = [{ scenarioNote with state := UserPlayable }] ∧
      s0.stats.notes_user_could_have_played = 0 ∧ s0.m_current_combo = 0 ∧
      Update_sweep_log byKey NoteWindowLength cur_time s0 SweepLog.empty = some (s1, g) ∧
      g.missed = [{ scenarioNote with state := UserPlayable }] ∧
      g.erased = [{ scenarioNote with state := UserMissed }] ∧
      s1.m_notes = [] ∧
      s1.stats.notes_user_could_have_played = 1 ∧ s1.stats.speed_integral = 100 ∧
      s1.m_current_combo = 0) ∧
    (∃ s0 s1 g, ResetSong byKey [scenarioNote] (scenarioSession false) = some s0 ∧
      s0.m_notes = [{ scenarioNote with state := UserPlayable }] ∧
      s0.stats.notes_user_could_have_played = 0 ∧ s0.m_current_combo = 0 ∧
      Update_sweep_log byKey NoteWindowLength cur_time s0 SweepLog.empty = some (s1, g) ∧
      g.missed = [] ∧
      g.erased = [{ scenarioNote with state := UserPlayable }] ∧
      s1.m_notes = [] ∧
      s1.stats.notes_user_could_have_played = 0 ∧ s1.stats.speed_integral = 0 ∧
      s1.m_current_combo = 0) := by
  have hwf : ∀ mi : Bool, WellFormed byKey
      ({ m_notes := [{ scenarioNote with state := UserPlayable }], m_current_combo := 0,
         stats := { SongStatistics.zero with total_note_count := 1 }, song_speed := 100,
         midi_in := mi, track_properties := [{ mode := Mode.ModeYouPlay }] } :
        PlayingState).m_notes := by
    intro mi; simp [WellFormed]
  have h1 : ¬ cur_time < 1000000 := by omega
  have h2 : (1500000 : Int) < cur_time := by omega
  have h3 : (1150000 : Int) ≤ cur_time := by omega
  have h4 : (1150000 : Int) < cur_time := by omega
  constructor
  · refine ⟨_, _, _, scenario_reset true, rfl, rfl, rfl,
      Update_sweep_log_eq byKey_noteOrder NoteWindowLength cur_time _ SweepLog.empty (hwf true),
      ?_, ?_, ?_, ?_, ?_, ?_⟩ <;>
    simp [passKept, passErased, passMissed, judged, expired, applyErased, withNotes,
      Update_score_miss, scenarioNote, SweepLog.empty, SongStatistics.zero, hW, h1, h2, h3, h4]
  · refine ⟨_, _, _, scenario_reset false, rfl, rfl, rfl,
      Update_sweep_log_eq byKey_noteOrder NoteWindowLength cur_time _ SweepLog.empty (hwf false),
      ?_, ?_, ?_, ?_, ?_, ?_⟩ <;>
    simp [passKept, passErased, passMissed, judged, expired, applyErased, withNotes,
      Update_score_miss, scenarioNote, SweepLog.empty, SongStatistics.zero, hW, h1, h2, h4]

theorem scenario_single_note_miss_witness :
    Int.tdiv 300000 2 = 150000 ∧ (1650000 : Int) < 1700000 ∧
    (∃ s0 s1 g, ResetSong byKey [scenarioNote] (scenarioSession true) = some s0 ∧
      s0.m_notes = [{ scenarioNote with state := UserPlayable }] ∧
      s0.stats.notes_user_could_have_played = 0 ∧ s0.m_current_combo = 0 ∧
      Update_sweep_log byKey 300000 1700000 s0 SweepLog.empty = some (s1, g) ∧
      g.missed = [{ scenarioNote with state := UserPlayable }] ∧
      g.erased = [{ scenarioNote with state := UserMissed }] ∧
      s1.m_notes = [] ∧
      s1.stats.notes_user_could_have_played = 1 ∧ s1.stats.speed_integral = 100 ∧
      s1.m_current_combo = 0) ∧
    (∃ s0 s1 g, ResetSong byKey [scenarioNote] (scenarioSession false) = some s0 ∧
      s0.m_notes = [{ scenarioNote with state := UserPlayable }] ∧
      s0.stats.notes_user_could_have_played = 0 ∧ s0.m_current_combo = 0 ∧
      Update_sweep_log byKey 300000 1700000 s0 SweepLog.empty = some (s1, g) ∧
      g.missed = [] ∧
      g.erased = [{ scenarioNote with state := UserPlayable }] ∧
      s1.m_notes = [] ∧
      s1.stats.notes_user_could_have_played = 0 ∧ s1.stats.speed_integral = 0 ∧
      s1.m_current_combo = 0) :=
  ⟨by decide, by decide, scenario_single_note_miss 300000 1700000 (by decide) (by decide)⟩

/-! ## C8: removal of AutoPlayed notes -/

/-- C8 (as stated, false). A short `AutoPlayed` note of the demo set (`start = 0`,
`end = 10`) is visited by the sweep at `cur_time = 100` with `NoteWindowLength =
300000`: its interval has elapsed (`end < cur_time`), yet the sweep does not remove
it, because `start + NoteWindowLength / 2 < cur_time` fails. -/
theorem autoPlayed_note_kept_within_window :
    ∃ n s2 g, n ∈ demoState.m_notes ∧ n.state = AutoPlayed ∧ n.start ≤ 100 ∧ n.end_ < 100 ∧
      Update_sweep_log byKey 300000 100 demoState SweepLog.empty = some (s2, g) ∧
      n ∈ s2.m_notes ∧ g.erased = [] :=
  ⟨{ start := 0, end_ := 10, note_id := 61, track_id := 1, state := AutoPlayed },
    demoState, SweepLog.empty, by decide, rfl, by decide, by decide, by decide, by decide, rfl⟩

/-- C8 (amended). On a well-formed set ordered by start time, the sweep returns,
and an `AutoPlayed` note that the sweep visits (`start <= cur_time`) is removed by
that sweep if and only if `end < cur_time` and `start + NoteWindowLength / 2 <
cur_time`, the same two conditions as for every other note; otherwise it stays in
the set, still `AutoPlayed`. -/
theorem autoPlayed_removed_iff_interval_and_window_elapsed
    (lt : TranslatedNote → TranslatedNote → Bool)
    (h : NoteOrder lt) (NoteWindowLength cur_time : Int) (s : PlayingState)
    (hw : WellFormed lt s.m_notes)
    (hs : List.Pairwise (fun a b => a.start ≤ b.start) s.m_notes) :
    ∃ s2 g, Update_sweep_log lt NoteWindowLength cur_time s SweepLog.empty = some (s2, g) ∧
      ∀ n ∈ s.m_notes, n.state = AutoPlayed → n.start ≤ cur_time →
        (n ∈ g.erased ↔
          (n.end_ < cur_time ∧ n.start + Int.tdiv NoteWindowLength 2 < cur_time)) ∧
        (n ∈ s2.m_notes ↔
          ¬ (n.end_ < cur_time ∧ n.start + Int.tdiv NoteWindowLength 2 < cur_time)) := by
  refine ⟨_, _, Update_sweep_log_eq h NoteWindowLength cur_time s SweepLog.empty hw, ?_⟩
  intro n hn hst hstart
  have hj : judged s.midi_in NoteWindowLength cur_time n = n :=
    judged_of_not_playable _ _ _ (by rw [hst]; decide)
  obtain ⟨v1, v2⟩ := pass_visited s.midi_in NoteWindowLength cur_time s.m_notes hs n hn hstart
  rw [hj] at v1 v2
  have hexp : expired NoteWindowLength cur_time n = true ↔
      (n.end_ < cur_time ∧ n.start + Int.tdiv NoteWindowLength 2 < cur_time) := by
    simp [expired]
  simp only [withNotes, SweepLog.empty, List.nil_append]
  constructor
  · rw [← hexp]
    exact ⟨passErased_expired _ _ _ _ n, v1⟩
  · rw [← hexp]
    constructor
    · intro hk hex
      have := passKept_not_expired s.midi_in NoteWindowLength cur_time s.m_notes hs n hk hstart
      rw [hex] at this
      exact Bool.noConfusion this
    · intro hex
      exact v2 (by simpa using hex)

theorem autoPlayed_removed_iff_interval_and_window_elapsed_witness :
    WellFormed byKey demoState.m_notes ∧
    List.Pairwise (fun a b : TranslatedNote => a.start ≤ b.start) demoState.m_notes ∧
    ∃ s2 g, Update_sweep_log byKey 300000 150001 demoState SweepLog.empty = some (s2, g) ∧
      ∀ n ∈ demoState.m_notes, n.state = AutoPlayed → n.start ≤ 150001 →
        (n ∈ g.erased ↔
          (n.end_ < 150001 ∧ n.start + Int.tdiv 300000 2 < 150001)) ∧
        (n ∈ s2.m_notes ↔
          ¬ (n.end_ < 150001 ∧ n.start + Int.tdiv 300000 2 < 150001)) :=
  ⟨demoNotes_wellFormed, demoNotes_sorted,
    autoPlayed_removed_iff_interval_and_window_elapsed byKey byKey_noteOrder 300000 150001
      demoState demoNotes_wellFormed demoNotes_sorted⟩

/-! ## C9: speed 0, pause, and a sweep repeated at the same position -/

/-- C9. At playback speed 0 the speed-scaled delta handed to the timeline is 0 for
every elapsed real time, as it is when paused at any speed; and on a well-formed
set the sweep returns, and run again at the same song position on the state it
left (whatever the speed was set to in between), it returns that state: the same
notes with the same states, the same combo and the same statistics, with nothing
marked and nothing erased; so does every number of repeated sweeps at speed 0. -/
theorem sweep_idempotent_at_fixed_position (lt : TranslatedNote → TranslatedNote → Bool)
    (h : NoteOrder lt) (NoteWindowLength cur_time : Int) (s : PlayingState)
    (hw : WellFormed lt s.m_notes) :
    (∀ delta_ms : Int, ∀ m_paused : Bool, Update_delta delta_ms 0 m_paused = 0) ∧
    (∀ delta_ms song_speed : Int, Update_delta delta_ms song_speed true = 0) ∧
    ∃ s1, Update_sweep lt NoteWindowLength cur_time s = some s1 ∧
      Update_sweep lt NoteWindowLength cur_time s1 = some s1 ∧
      (∀ v : Int, Update_sweep_log lt NoteWindowLength cur_time
          { s1 with song_speed := v } SweepLog.empty =
        some ({ s1 with song_speed := v }, SweepLog.empty)) ∧
      (∀ k : Nat, Update_sweeps lt NoteWindowLength
          (List.replicate k { cur_time := cur_time, song_speed := 0 })
          { s1 with song_speed := 0 } SweepLog.empty =
        some ({ s1 with song_speed := 0 }, SweepLog.empty)) := by
  refine ⟨Update_delta_zero_speed, Update_delta_paused, ?_⟩
  have hlog := Update_sweep_log_eq h NoteWindowLength cur_time s SweepLog.empty hw
  obtain ⟨i1, i2, i3⟩ := pass_idem s.midi_in NoteWindowLength cur_time s.m_notes
  have hfix : ∀ v : Int, Update_sweep_log lt NoteWindowLength cur_time
      { withNotes (applyErased (passErased s.midi_in NoteWindowLength cur_time s.m_notes) s)
          (passKept s.midi_in NoteWindowLength cur_time s.m_notes) with song_speed := v }
      SweepLog.empty =
      some ({ withNotes (applyErased (passErased s.midi_in NoteWindowLength cur_time s.m_notes) s)
          (passKept s.midi_in NoteWindowLength cur_time s.m_notes) with song_speed := v },
        SweepLog.empty) := by
    intro v
    apply sweep_fixed h
    · exact wellFormed_of_keys h (pass_keys_sublist _ _ _ _) hw
    · simp only [withNotes, applyErased_midi_in]; exact i1
    · simp only [withNotes, applyErased_midi_in]; exact i2
    · simp only [withNotes, applyErased_midi_in]; exact i3
  refine ⟨_, ?_, ?_, hfix, ?_⟩
  · unfold Update_sweep; rw [hlog]; rfl
  · have := hfix (applyErased (passErased s.midi_in NoteWindowLength cur_time s.m_notes)
      s).song_speed
    unfold Update_sweep
    simp only [withNotes] at this ⊢
    rw [this]; rfl
  · intro k
    exact sweeps_fixed NoteWindowLength cur_time _ (hfix 0) k

theorem sweep_idempotent_at_fixed_position_witness :
    WellFormed byKey demoState.m_notes ∧
    (∀ delta_ms : Int, ∀ m_paused : Bool, Update_delta delta_ms 0 m_paused = 0) ∧
    (∀ delta_ms song_speed : Int, Update_delta delta_ms song_speed true = 0) ∧
    ∃ s1, Update_sweep byKey 300000 1600000 demoState = some s1 ∧
      Update_sweep byKey 300000 1600000 s1 = some s1 ∧
      (∀ v : Int, Update_sweep_log byKey 300000 1600000
          { s1 with song_speed := v } SweepLog.empty =
        some ({ s1 with song_speed := v }, SweepLog.empty)) ∧
      (∀ k : Nat, Update_sweeps byKey 300000
          (List.replicate k { cur_time := 1600000, song_speed := 0 })
          { s1 with song_speed := 0 } SweepLog.empty =
        some ({ s1 with song_speed := 0 }, SweepLog.empty)) :=
  ⟨demoNotes_wellFormed,
    sweep_idempotent_at_fixed_position byKey byKey_noteOrder 300000 1600000 demoState
      demoNotes_wellFormed⟩

/-! ## C10: SetupNoteState is idempotent -/

/-- C10. `SetupNoteState` is idempotent: on every well-formed set and every track
configuration, rebuilding twice gives what rebuilding once gives (the same notes
with the same states in the same order); and when every `track_id` is a valid
index the call returns. -/
theorem setupNoteState_idempotent (lt : TranslatedNote → TranslatedNote → Bool)
    (h : NoteOrder lt) (s : PlayingState) (hw : WellFormed lt s.m_notes) :
    (SetupNoteState lt s).bind (SetupNoteState lt) = SetupNoteState lt s ∧
    ((∀ n ∈ s.m_notes, n.track_id < s.track_properties.length) →
      ∃ s1, SetupNoteState lt s = some s1 ∧ SetupNoteState lt s1 = some s1 ∧
        s1.m_notes.length = s.m_notes.length) := by
  have key : ∀ s1, SetupNoteState lt s = some s1 →
      SetupNoteState lt s1 = some s1 ∧ s1.m_notes.length = s.m_notes.length := by
    intro s1 h1
    rw [SetupNoteState_eq h s hw] at h1
    split at h1
    · rename_i hall
      have e1 : s1 = withNotes s (s.m_notes.map (setupNote s.track_properties)) :=
        (Option.some.inj h1).symm
      subst e1
      have hw1 : WellFormed lt (withNotes s (s.m_notes.map (setupNote s.track_properties))).m_notes := by
        apply wellFormed_of_keys h _ hw
        have hk : (s.m_notes.map (setupNote s.track_properties)).map noteKey =
            s.m_notes.map noteKey := by
          rw [List.map_map]
          apply List.map_congr_left
          intro n _
          exact setupNote_key s.track_properties n
        simp only [withNotes, hk]
        exact List.Sublist.refl _
      refine ⟨?_, by simp [withNotes]⟩
      rw [SetupNoteState_eq h _ hw1]
      have hall1 : (withNotes s (s.m_notes.map (setupNote s.track_properties))).m_notes.all
          (fun n => decide (n.track_id <
            (withNotes s (s.m_notes.map (setupNote s.track_properties))).track_properties.length))
          = true := by
        rw [List.all_eq_true] at hall ⊢
        intro n hn
        simp only [withNotes, List.mem_map] at hn
        obtain ⟨m, hm, rfl⟩ := hn
        have hk : (setupNote s.track_properties m).track_id = m.track_id :=
          congrArg (fun k => k.2.2.2) (setupNote_key s.track_properties m)
        simp only [withNotes, hk]
        exact hall m hm
      rw [if_pos hall1]
      simp only [withNotes, List.map_map]
      congr 2
      apply List.map_congr_left
      intro n _
      exact setupNote_idem s.track_properties n
    · exact Option.noConfusion h1
  constructor
  · cases h1 : SetupNoteState lt s with
    | none => rfl
    | some s1 => exact (key s1 h1).1
  · intro hv
    have hall : s.m_notes.all (fun n => decide (n.track_id < s.track_properties.length)) = true := by
      rw [List.all_eq_true]; intro n hn; simpa using hv n hn
    have h1 : SetupNoteState lt s =
        some (withNotes s (s.m_notes.map (setupNote s.track_properties))) := by
      rw [SetupNoteState_eq h s hw, if_pos hall]
    exact ⟨_, h1, (key _ h1).1, (key _ h1).2⟩

theorem setupNoteState_idempotent_witness :
    WellFormed byKey demoState.m_notes ∧
    (SetupNoteState byKey demoState).bind (SetupNoteState byKey) =
      SetupNoteState byKey demoState ∧
    (SetupNoteState byKey demoState).isSome = true :=
  ⟨demoNotes_wellFormed,
    (setupNoteState_idempotent byKey byKey_noteOrder demoState demoNotes_wellFormed).1,
    by decide⟩

end Pianesia
